import Mathlib

/-!
# Verification of the slog rendering engine

A shallow embedding of the structured-logging rendering engine
(`src/index.ts` of superbuilders/slog): the fixed 8192-byte buffer with
clipping write primitives, the value serializer, the attribute assembler,
the timestamp cache and the level-gated dispatch, together with theorems
settling the specification claims about them.

Modelling conventions:
- The byte buffer (`logView`) is a total function from index to byte value;
  the unused tail beyond the flushed range is irrelevant to every claim.
- JavaScript strings are lists of UTF-16 code units (natural numbers).
- JavaScript numbers are modelled by `JSNumber`: NaN, the two infinities,
  or a finite decimal `m / 10 ^ e` — the exact-decimal fragment that the
  source and its tests exercise.
- Module-level mutable state is threaded explicitly through a `LogState`
  record; `Date.now()` and the local-time decomposition of an instant are
  host-environment inputs, passed in as explicit arguments.
-/

set_option autoImplicit false

/-- Buffer capacity (`BUFFER_SIZE` in the source). -/
def BUFFER_SIZE : Nat := 8192

/-- `Number.MAX_SAFE_INTEGER` of the host language. -/
def MAX_SAFE_INTEGER : Nat := 2 ^ 53 - 1

/-- The byte buffer, as a total map from index to byte value. -/
def Buf : Type := Nat → Nat

/-- Store one byte at one index. -/
def bufWrite (b : Buf) (i v : Nat) : Buf := fun j => if j = i then v else b j

/-- Store a run of bytes starting at an index (`target.set(src, offset)`). -/
def setRange : Buf → Nat → List Nat → Buf
  | b, _, [] => b
  | b, i, x :: xs => setRange (bufWrite b i x) (i + 1) xs

/-- Read `n` bytes starting at `off` (the flushed `subarray`). -/
def readRange (b : Buf) (off n : Nat) : List Nat :=
  (List.range n).map fun i => b (off + i)

/-- The zero-initialised buffer backing `logView`. -/
def emptyBuf : Buf := fun _ => 0

/-! The pre-encoded byte constants of the source's `STATIC_BYTES` object. -/

namespace STATIC_BYTES

def DEBUG : List Nat := [32, 68, 69, 66, 85, 71, 32]
def INFO : List Nat := [32, 73, 78, 70, 79, 32]
def WARN : List Nat := [32, 87, 65, 82, 78, 32]
def ERROR : List Nat := [32, 69, 82, 82, 79, 82, 32]
def NEWLINE : List Nat := [10]
def SPACE : List Nat := [32]
def EQUALS : List Nat := [61]
def COLON : List Nat := [58]
def NULL : List Nat := [110, 117, 108, 108]
def UNDEFINED : List Nat := [117, 110, 100, 101, 102, 105, 110, 101, 100]
def TRUE : List Nat := [116, 114, 117, 101]
def FALSE : List Nat := [102, 97, 108, 115, 101]
def QUOTE : List Nat := [34]
def BRACKET_OPEN : List Nat := [91]
def BRACKET_CLOSE : List Nat := [93]
def BRACE_OPEN : List Nat := [123]
def BRACE_CLOSE : List Nat := [125]
def COMMA : List Nat := [44]
def ZERO : List Nat := [48]
def MINUS : List Nat := [45]

end STATIC_BYTES

/-- `writeBytes(target, offset, source)`: clip to remaining capacity and
copy; the cursor advances by the number of bytes actually written. -/
def writeBytes (target : Buf) (offset : Nat) (source : List Nat) : Buf × Nat :=
  if BUFFER_SIZE ≤ offset then (target, offset)
  else
    let bytesToWrite := min source.length (BUFFER_SIZE - offset)
    (setRange target offset (source.take bytesToWrite), offset + bytesToWrite)

/-- A JavaScript string, as its list of UTF-16 code units. -/
abbrev JStr : Type := List Nat

/-- The ASCII scan of `writeStringAsBytes`: every code unit at most 127. -/
def isAsciiStr (s : JStr) : Bool := s.all fun c => c ≤ 127

/-- UTF-8 encoding of a single code point. -/
def utf8Enc (c : Nat) : List Nat :=
  if c < 128 then [c]
  else if c < 2048 then [192 + c / 64, 128 + c % 64]
  else if c < 65536 then [224 + c / 4096, 128 + c / 64 % 64, 128 + c % 64]
  else [240 + c / 262144, 128 + c / 4096 % 64, 128 + c / 64 % 64, 128 + c % 64]

/-- Decode a UTF-16 code-unit sequence to code points, pairing surrogates
and replacing lone surrogates with U+FFFD, as `TextEncoder` does. -/
def utf16ToCodePoints : List Nat → List Nat
  | [] => []
  | [u] =>
    if 55296 ≤ u ∧ u < 57344 then [65533] else [u]
  | u :: v :: rest =>
    if 55296 ≤ u ∧ u < 56320 then
      if 56320 ≤ v ∧ v < 57344 then
        (65536 + (u - 55296) * 1024 + (v - 56320)) :: utf16ToCodePoints rest
      else 65533 :: utf16ToCodePoints (v :: rest)
    else if 56320 ≤ u ∧ u < 57344 then 65533 :: utf16ToCodePoints (v :: rest)
    else u :: utf16ToCodePoints (v :: rest)

/-- Greedy prefix encoding with a space budget: encode code points while
each one fits whole, stop at the first that does not
(`TextEncoder.encodeInto` into a bounded subarray). -/
def encodePoints : List Nat → Nat → List Nat
  | [], _ => []
  | c :: cs, space =>
    let e := utf8Enc c
    if e.length ≤ space then e ++ encodePoints cs (space - e.length) else []

/-- `encoder.encodeInto(str, target.subarray(offset))` restricted to its
written bytes, for a subarray of length `space`. -/
def encodeInto (s : JStr) (space : Nat) : List Nat :=
  encodePoints (utf16ToCodePoints s) space

/-- `writeStringAsBytes(target, offset, str)`: ASCII fast path copies the
code units directly, clipped to the remaining space; otherwise the UTF-8
encoder writes as many whole code points as fit. -/
def writeStringAsBytes (target : Buf) (offset : Nat) (str : JStr) : Buf × Nat :=
  if BUFFER_SIZE ≤ offset then (target, offset)
  else if isAsciiStr str then
    let charsToWrite := min str.length (BUFFER_SIZE - offset)
    (setRange target offset (str.take charsToWrite), offset + charsToWrite)
  else
    let bytes := encodeInto str (BUFFER_SIZE - offset)
    (setRange target offset bytes, offset + bytes.length)

/-- A JavaScript number: NaN, an infinity, or a finite decimal
`m / 10 ^ e` (the exact-decimal fragment the source manipulates). -/
inductive JSNumber : Type where
  | nan : JSNumber
  | posInf : JSNumber
  | negInf : JSNumber
  | finite (m : Int) (e : Nat) : JSNumber

/-- The digit-extraction loop of the integer path: produce the ASCII
decimal digits of `n`, most significant first (the source writes the same
bytes right to left). The first argument is fuel; `n` itself suffices. -/
def digitsLoop : Nat → Nat → List Nat
  | _, 0 => []
  | 0, _ + 1 => []
  | fuel + 1, n + 1 => digitsLoop fuel ((n + 1) / 10) ++ [48 + (n + 1) % 10]

/-- ASCII decimal digits of a positive integer, most significant first. -/
def asciiDigits (n : Nat) : List Nat := digitsLoop n n

/-- Normalise a decimal `m / 10 ^ e` by cancelling factors of 10, as the
host's number-to-string conversion prints the shortest form. -/
def stripZeros : Nat → Nat → Nat × Nat
  | m, 0 => (m, 0)
  | m, e + 1 => if m % 10 = 0 then stripZeros (m / 10) e else (m, e + 1)

/-- Models the host's number-to-string conversion for a positive finite
decimal `m / 10 ^ e` in the plain (non-exponential) range: the decimal
digits with a dot inserted `e` places from the right, zero-padded on the
left when the integer part would be empty. -/
def decToString (m e : Nat) : List Nat :=
  let p := stripZeros m e
  if p.2 = 0 then asciiDigits p.1
  else
    let ds := asciiDigits p.1
    let padded := if ds.length ≤ p.2 then List.replicate (p.2 + 1 - ds.length) 48 ++ ds else ds
    padded.take (padded.length - p.2) ++ [46] ++ padded.drop (padded.length - p.2)

/-- ASCII code units of the literal strings used for the special cases. -/
def NAN_STR : JStr := [78, 97, 78]

def INFINITY_STR : JStr := [73, 110, 102, 105, 110, 105, 116, 121]

def NEG_INFINITY_STR : JStr := 45 :: INFINITY_STR

/-- `writeNumberAsBytes(target, offset, num)`. Faithful to the source,
including the float fallback's use of the original `offset` (not the
advanced `pos`) and of the already-negated magnitude. -/
def writeNumberAsBytes (target : Buf) (offset : Nat) (num : JSNumber) : Buf × Nat :=
  match num with
  | .nan => writeStringAsBytes target offset NAN_STR
  | .posInf => writeStringAsBytes target offset INFINITY_STR
  | .negInf => writeStringAsBytes target offset NEG_INFINITY_STR
  | .finite m e =>
    let r0 := if m < 0 then writeBytes target offset STATIC_BYTES.MINUS else (target, offset)
    let target1 := r0.1
    let pos := r0.2
    let mag : Nat := m.natAbs
    if mag = 0 then writeBytes target1 pos STATIC_BYTES.ZERO
    else if 10 ^ e ∣ mag ∧ mag / 10 ^ e < MAX_SAFE_INTEGER then
      let ds := asciiDigits (mag / 10 ^ e)
      if BUFFER_SIZE < pos + ds.length then (target1, pos)
      else (setRange target1 pos ds, pos + ds.length)
    else
      writeStringAsBytes target1 offset (decToString mag e)

/-! ## Runtime values

The serializer's dispatch over `typeof`/`Array.isArray`/custom `toString`
is modelled by an explicit sum. `coerced` covers the branches whose output
is the value's textual coercion (bigint, symbol, function, default);
`withToString` is an object whose own `toString` differs from the generic
one, carrying that method's result. The list and field constructors form a
mutual inductive so that the serializer recurses structurally. -/

mutual

inductive Value : Type where
  | null : Value
  | undef : Value
  | str (s : JStr) : Value
  | num (n : JSNumber) : Value
  | bool (b : Bool) : Value
  | coerced (s : JStr) : Value
  | withToString (s : JStr) : Value
  | arr (xs : ValueList) : Value
  | obj (fs : FieldList) : Value

inductive ValueList : Type where
  | nil : ValueList
  | cons (v : Value) (tl : ValueList) : ValueList

inductive FieldList : Type where
  | nil : FieldList
  | cons (k : JStr) (v : Value) (tl : FieldList) : FieldList

end

mutual

/-- `serializeValueToBuffer(target, offset, value)`. -/
def serializeValueToBuffer : Buf → Nat → Value → Buf × Nat
  | target, offset, .null => writeBytes target offset STATIC_BYTES.NULL
  | target, offset, .undef => writeBytes target offset STATIC_BYTES.UNDEFINED
  | target, offset, .str s => writeStringAsBytes target offset s
  | target, offset, .num n => writeNumberAsBytes target offset n
  | target, offset, .bool b =>
    writeBytes target offset (if b then STATIC_BYTES.TRUE else STATIC_BYTES.FALSE)
  | target, offset, .coerced s => writeStringAsBytes target offset s
  | target, offset, .withToString s => writeStringAsBytes target offset s
  | target, offset, .arr xs =>
    let r := writeBytes target offset STATIC_BYTES.BRACKET_OPEN
    let r2 := serializeArrayElems r.1 r.2 true xs
    writeBytes r2.1 r2.2 STATIC_BYTES.BRACKET_CLOSE
  | target, offset, .obj fs =>
    let r := writeBytes target offset STATIC_BYTES.BRACE_OPEN
    let r2 := serializeObjectFields r.1 r.2 true fs
    writeBytes r2.1 r2.2 STATIC_BYTES.BRACE_CLOSE

/-- The array element loop (`if (i > 0) write comma; serialize element`),
with the positive-index test carried as an `isFirst` flag. -/
def serializeArrayElems : Buf → Nat → Bool → ValueList → Buf × Nat
  | b, pos, _, .nil => (b, pos)
  | b, pos, isFirst, .cons v tl =>
    let r := if isFirst then (b, pos) else writeBytes b pos STATIC_BYTES.COMMA
    let r2 := serializeValueToBuffer r.1 r.2 v
    serializeArrayElems r2.1 r2.2 false tl

/-- The generic object field loop: comma separator, quoted key, colon,
recursively serialized value. -/
def serializeObjectFields : Buf → Nat → Bool → FieldList → Buf × Nat
  | b, pos, _, .nil => (b, pos)
  | b, pos, isFirst, .cons k v tl =>
    let r := if isFirst then (b, pos) else writeBytes b pos STATIC_BYTES.COMMA
    let rq := writeBytes r.1 r.2 STATIC_BYTES.QUOTE
    let rk := writeStringAsBytes rq.1 rq.2 k
    let rq2 := writeBytes rk.1 rk.2 STATIC_BYTES.QUOTE
    let rc := writeBytes rq2.1 rq2.2 STATIC_BYTES.COLON
    let rv := serializeValueToBuffer rc.1 rc.2 v
    serializeObjectFields rv.1 rv.2 false tl

end

/-- `hasOwnProperties(obj)`: does the record have any own key. -/
def hasOwnProperties : FieldList → Bool
  | .nil => false
  | .cons _ _ _ => true

/-- The shared entry loop of `buildAttributesToBuffer`: space separator
when anything was already emitted, then `key`, `=`, serialized value; the
flag is returned for the second tier. -/
def buildAttrsLoop : Buf → Nat → Bool → FieldList → Buf × Nat × Bool
  | b, pos, hasAny, .nil => (b, pos, hasAny)
  | b, pos, hasAny, .cons k v tl =>
    let r := if hasAny then writeBytes b pos STATIC_BYTES.SPACE else (b, pos)
    let rk := writeStringAsBytes r.1 r.2 k
    let re := writeBytes rk.1 rk.2 STATIC_BYTES.EQUALS
    let rv := serializeValueToBuffer re.1 re.2 v
    buildAttrsLoop rv.1 rv.2 true tl

/-- `buildAttributesToBuffer(target, offset, attrs?)`: default tier first,
then the call tier when present. -/
def buildAttributesToBuffer (defaults : FieldList) (target : Buf) (offset : Nat)
    (attrs : Option FieldList) : Buf × Nat :=
  let r := buildAttrsLoop target offset false defaults
  match attrs with
  | none => (r.1, r.2.1)
  | some a =>
    let r2 := buildAttrsLoop r.1 r.2.1 r.2.2 a
    (r2.1, r2.2.1)

/-! ## Timestamp cache and logger state -/

/-- The local-time decomposition of an instant, as returned by the host's
Date accessors (`getMonth` is 0-based). -/
structure DateParts : Type where
  year : Nat
  month : Nat
  day : Nat
  hours : Nat
  minutes : Nat
  seconds : Nat

/-- The 17 header bytes written on refresh: `YYYY/MM/DD HH:MM:` rendered
by the source's arithmetic digit decomposition. -/
def tsHeaderBytes (d : DateParts) : List Nat :=
  [48 + d.year / 1000 % 10, 48 + d.year / 100 % 10, 48 + d.year / 10 % 10, 48 + d.year % 10, 47,
   48 + (d.month + 1) / 10, 48 + (d.month + 1) % 10, 47,
   48 + d.day / 10, 48 + d.day % 10, 32,
   48 + d.hours / 10, 48 + d.hours % 10, 58,
   48 + d.minutes / 10, 48 + d.minutes % 10, 58]

/-- The separately cached two seconds digits. -/
def secondsBytesOf (d : DateParts) : List Nat :=
  [48 + d.seconds / 10, 48 + d.seconds % 10]

/-- The module-level mutable state of the logger. -/
structure LogState : Type where
  buf : Buf
  minimumLevel : Int
  defaultAttributes : FieldList
  cachedTimestampBytes : List Nat
  timestampLength : Nat
  cachedSecondsBytes : List Nat
  secondsLength : Nat
  lastCacheTime : Int

/-- The state at module initialisation. -/
def initialState : LogState where
  buf := emptyBuf
  minimumLevel := 0
  defaultAttributes := .nil
  cachedTimestampBytes := List.replicate 19 0
  timestampLength := 0
  cachedSecondsBytes := List.replicate 2 0
  secondsLength := 0
  lastCacheTime := 0

/-- `updateTimestampCache()`: recompute the rendering only when at least
1000 ms elapsed since the last refresh. `dateOf` is the host's local-time
decomposition of an instant; `now` is `Date.now()`. -/
def updateTimestampCache (dateOf : Int → DateParts) (now : Int) (st : LogState) : LogState :=
  if 1000 ≤ now - st.lastCacheTime then
    let d := dateOf now
    { st with
      cachedTimestampBytes := tsHeaderBytes d ++ st.cachedTimestampBytes.drop 17
      timestampLength := 17
      cachedSecondsBytes := secondsBytesOf d
      secondsLength := 2
      lastCacheTime := now }
  else st

/-- The two output sinks. -/
inductive Channel : Type where
  | standard : Channel
  | err : Channel
deriving DecidableEq

/-- `flushBuffer(length, isError)`: the emitted write, as the pair of the
selected channel and the flushed byte range `[0, length)`. -/
def flushBuffer (b : Buf) (length : Nat) (isError : Bool) : Channel × List Nat :=
  (if isError then Channel.err else Channel.standard, readRange b 0 length)

/-- The numeric level constants. -/
def LEVEL_DEBUG : Int := -4

def LEVEL_INFO : Int := 0

def LEVEL_WARN : Int := 4

def LEVEL_ERROR : Int := 8

/-- The shared tail of every entry point: message, attribute block, the
guaranteed trailing newline, and the flush. Returns the new buffer and
the flushed write. -/
def renderTail (st : LogState) (b : Buf) (pos : Nat) (message : JStr)
    (attributes : Option FieldList) (isError : Bool) : LogState × List (Channel × List Nat) :=
  let rm := writeStringAsBytes b pos message
  let hasAttrs := hasOwnProperties st.defaultAttributes ||
    (match attributes with | some a => hasOwnProperties a | none => false)
  let ra :=
    if hasAttrs then
      let rs := writeBytes rm.1 rm.2 STATIC_BYTES.SPACE
      buildAttributesToBuffer st.defaultAttributes rs.1 rs.2 attributes
    else rm
  let rf :=
    if ra.2 < BUFFER_SIZE then writeBytes ra.1 ra.2 STATIC_BYTES.NEWLINE
    else (bufWrite ra.1 (BUFFER_SIZE - 1) 10, BUFFER_SIZE)
  ({ st with buf := rf.1 }, [flushBuffer rf.1 rf.2 isError])

/-- `log(level, message, attributes?)`: the full dispatch, rendering and
flush for an arbitrary numeric level. -/
def log (dateOf : Int → DateParts) (st : LogState) (now : Int) (level : Int)
    (message : JStr) (attributes : Option FieldList) : LogState × List (Channel × List Nat) :=
  if level < st.minimumLevel then (st, [])
  else
    let st1 := updateTimestampCache dateOf now st
    let r1 := writeBytes st1.buf 0 (st1.cachedTimestampBytes.take st1.timestampLength)
    let r2 := writeBytes r1.1 r1.2 (st1.cachedSecondsBytes.take st1.secondsLength)
    let r3 :=
      if level = LEVEL_DEBUG then writeBytes r2.1 r2.2 STATIC_BYTES.DEBUG
      else if level = LEVEL_INFO then writeBytes r2.1 r2.2 STATIC_BYTES.INFO
      else if level = LEVEL_WARN then writeBytes r2.1 r2.2 STATIC_BYTES.WARN
      else writeBytes r2.1 r2.2 STATIC_BYTES.ERROR
    renderTail st1 r3.1 r3.2 message attributes (decide (LEVEL_WARN ≤ level))

/-- `debug(message, attributes?)`: the dedicated debug entry point. -/
def debug (dateOf : Int → DateParts) (st : LogState) (now : Int)
    (message : JStr) (attributes : Option FieldList) : LogState × List (Channel × List Nat) :=
  if LEVEL_DEBUG < st.minimumLevel then (st, [])
  else
    let st1 := updateTimestampCache dateOf now st
    let r1 := writeBytes st1.buf 0 (st1.cachedTimestampBytes.take st1.timestampLength)
    let r2 := writeBytes r1.1 r1.2 (st1.cachedSecondsBytes.take st1.secondsLength)
    let r3 := writeBytes r2.1 r2.2 STATIC_BYTES.DEBUG
    renderTail st1 r3.1 r3.2 message attributes false

/-- `info(message, attributes?)`: the dedicated info entry point. -/
def info (dateOf : Int → DateParts) (st : LogState) (now : Int)
    (message : JStr) (attributes : Option FieldList) : LogState × List (Channel × List Nat) :=
  if LEVEL_INFO < st.minimumLevel then (st, [])
  else
    let st1 := updateTimestampCache dateOf now st
    let r1 := writeBytes st1.buf 0 (st1.cachedTimestampBytes.take st1.timestampLength)
    let r2 := writeBytes r1.1 r1.2 (st1.cachedSecondsBytes.take st1.secondsLength)
    let r3 := writeBytes r2.1 r2.2 STATIC_BYTES.INFO
    renderTail st1 r3.1 r3.2 message attributes false

/-- `warn(message, attributes?)`: the dedicated warn entry point. -/
def warn (dateOf : Int → DateParts) (st : LogState) (now : Int)
    (message : JStr) (attributes : Option FieldList) : LogState × List (Channel × List Nat) :=
  if LEVEL_WARN < st.minimumLevel then (st, [])
  else
    let st1 := updateTimestampCache dateOf now st
    let r1 := writeBytes st1.buf 0 (st1.cachedTimestampBytes.take st1.timestampLength)
    let r2 := writeBytes r1.1 r1.2 (st1.cachedSecondsBytes.take st1.secondsLength)
    let r3 := writeBytes r2.1 r2.2 STATIC_BYTES.WARN
    renderTail st1 r3.1 r3.2 message attributes true

/-- `error(message, attributes?)`: the dedicated error entry point. -/
def error (dateOf : Int → DateParts) (st : LogState) (now : Int)
    (message : JStr) (attributes : Option FieldList) : LogState × List (Channel × List Nat) :=
  if LEVEL_ERROR < st.minimumLevel then (st, [])
  else
    let st1 := updateTimestampCache dateOf now st
    let r1 := writeBytes st1.buf 0 (st1.cachedTimestampBytes.take st1.timestampLength)
    let r2 := writeBytes r1.1 r1.2 (st1.cachedSecondsBytes.take st1.secondsLength)
    let r3 := writeBytes r2.1 r2.2 STATIC_BYTES.ERROR
    renderTail st1 r3.1 r3.2 message attributes true

/-- `setDefaultLogLevel(level)`. -/
def setDefaultLogLevel (st : LogState) (level : Int) : LogState :=
  { st with minimumLevel := level }

/-- `setDefaultAttributes(attributes)`: replace the whole default tier. -/
def setDefaultAttributes (st : LogState) (attributes : FieldList) : LogState :=
  { st with defaultAttributes := attributes }

/-- One step of `addDefaultAttributes`'s loop: the host's property
assignment `defaultAttributes[key] = value` keeps an existing key's
position and replaces its value; a new key is appended. -/
def recSet : FieldList → JStr → Value → FieldList
  | .nil, k, v => .cons k v .nil
  | .cons k0 v0 tl, k, v =>
    if k0 = k then .cons k0 v tl else .cons k0 v0 (recSet tl k v)

/-- The fold of `addDefaultAttributes` over the new map's keys in order. -/
def mergeAttrs : FieldList → FieldList → FieldList
  | fs, .nil => fs
  | fs, .cons k v tl => mergeAttrs (recSet fs k v) tl

/-- `addDefaultAttributes(attributes)`: merge into the default tier. -/
def addDefaultAttributes (st : LogState) (attributes : FieldList) : LogState :=
  { st with defaultAttributes := mergeAttrs st.defaultAttributes attributes }

/-! ## Net-effect byte renderings

For each write routine, the byte sequence it appends when the buffer has
room, read off the source's branches. These are the reference values the
buffer computations are proved against. -/

/-- Full UTF-8 encoding of a code-point sequence. -/
def utf8EncodeAll (cps : List Nat) : List Nat := (cps.map utf8Enc).flatten

/-- Bytes appended for a string: the code units themselves on the ASCII
fast path, the UTF-8 encoding otherwise. -/
def strBytes (s : JStr) : List Nat :=
  if isAsciiStr s then s else utf8EncodeAll (utf16ToCodePoints s)

/-- Bytes appended for a number. In the fallback branch the sign is lost:
the minus byte written first is overwritten because the source passes the
original `offset` and the negated magnitude to the string writer. -/
def numBytes : JSNumber → List Nat
  | .nan => NAN_STR
  | .posInf => INFINITY_STR
  | .negInf => NEG_INFINITY_STR
  | .finite m e =>
    let mag := m.natAbs
    if mag = 0 then STATIC_BYTES.ZERO
    else if 10 ^ e ∣ mag ∧ mag / 10 ^ e < MAX_SAFE_INTEGER then
      (if m < 0 then STATIC_BYTES.MINUS else []) ++ asciiDigits (mag / 10 ^ e)
    else decToString mag e

mutual

/-- Bytes appended for a value. -/
def serializeBytes : Value → List Nat
  | .null => STATIC_BYTES.NULL
  | .undef => STATIC_BYTES.UNDEFINED
  | .str s => strBytes s
  | .num n => numBytes n
  | .bool b => if b then STATIC_BYTES.TRUE else STATIC_BYTES.FALSE
  | .coerced s => strBytes s
  | .withToString s => strBytes s
  | .arr xs => STATIC_BYTES.BRACKET_OPEN ++ arrElemsBytes true xs ++ STATIC_BYTES.BRACKET_CLOSE
  | .obj fs => STATIC_BYTES.BRACE_OPEN ++ objFieldsBytes true fs ++ STATIC_BYTES.BRACE_CLOSE

/-- Bytes appended by the array element loop. -/
def arrElemsBytes : Bool → ValueList → List Nat
  | _, .nil => []
  | isFirst, .cons v tl =>
    (if isFirst then [] else STATIC_BYTES.COMMA) ++ serializeBytes v ++ arrElemsBytes false tl

/-- Bytes appended by the object field loop. -/
def objFieldsBytes : Bool → FieldList → List Nat
  | _, .nil => []
  | isFirst, .cons k v tl =>
    (if isFirst then [] else STATIC_BYTES.COMMA) ++ STATIC_BYTES.QUOTE ++ strBytes k ++
      STATIC_BYTES.QUOTE ++ STATIC_BYTES.COLON ++ serializeBytes v ++ objFieldsBytes false tl

end

/-- Bytes appended by the attribute entry loop. -/
def attrsLoopBytes : Bool → FieldList → List Nat
  | _, .nil => []
  | hasAny, .cons k v tl =>
    (if hasAny then STATIC_BYTES.SPACE else []) ++ strBytes k ++ STATIC_BYTES.EQUALS ++
      serializeBytes v ++ attrsLoopBytes true tl

/-- Bytes appended by the whole attribute block. -/
def buildAttrsBytes (defaults : FieldList) (attrs : Option FieldList) : List Nat :=
  attrsLoopBytes false defaults ++
    (match attrs with
     | none => []
     | some a => attrsLoopBytes (hasOwnProperties defaults) a)

/-! ## Buffer write lemmas -/

theorem setRange_nil (b : Buf) (i : Nat) : setRange b i [] = b := rfl

theorem setRange_append (b : Buf) (i : Nat) (xs ys : List Nat) :
    setRange b i (xs ++ ys) = setRange (setRange b i xs) (i + xs.length) ys := by
  induction xs generalizing b i with
  | nil => simp [setRange]
  | cons x xs ih =>
    show setRange (bufWrite b i x) (i + 1) (xs ++ ys) =
      setRange (setRange (bufWrite b i x) (i + 1) xs) (i + (xs.length + 1)) ys
    rw [ih]
    have harith : i + 1 + xs.length = i + (xs.length + 1) := by omega
    rw [harith]

theorem bufWrite_overwrite (b : Buf) (i a y : Nat) :
    bufWrite (bufWrite b i a) i y = bufWrite b i y := by
  funext j
  by_cases h : j = i <;> simp [bufWrite, h]

theorem setRange_overwrite_head (b : Buf) (i a y : Nat) (ys : List Nat) :
    setRange (setRange b i [a]) i (y :: ys) = setRange b i (y :: ys) := by
  show setRange (bufWrite (bufWrite b i a) i y) (i + 1) ys = _
  rw [bufWrite_overwrite]
  rfl

theorem writeBytes_ok (b : Buf) (off : Nat) (src : List Nat)
    (h : off + src.length ≤ BUFFER_SIZE) :
    writeBytes b off src = (setRange b off src, off + src.length) := by
  unfold writeBytes
  split
  · next hge =>
    have hlen : src.length = 0 := by omega
    have hsrc : src = [] := List.length_eq_zero.mp hlen
    subst hsrc
    simp [setRange]
  · next hlt =>
    have hmin : min src.length (BUFFER_SIZE - off) = src.length := by omega
    simp [hmin, List.take_length]

theorem writeBytes_le (b : Buf) (off : Nat) (src : List Nat) (h : off ≤ BUFFER_SIZE) :
    (writeBytes b off src).2 ≤ BUFFER_SIZE ∧ off ≤ (writeBytes b off src).2 := by
  unfold writeBytes
  split
  · exact ⟨h, Nat.le_refl off⟩
  · next hlt =>
    dsimp only
    omega

theorem encodePoints_length_le (cps : List Nat) (space : Nat) :
    (encodePoints cps space).length ≤ space := by
  induction cps generalizing space with
  | nil => simp [encodePoints]
  | cons c cs ih =>
    unfold encodePoints
    dsimp only
    split
    · next hfit =>
      have := ih (space - (utf8Enc c).length)
      simp only [List.length_append]
      omega
    · simp

theorem utf8Enc_ne_nil (c : Nat) : utf8Enc c ≠ [] := by
  unfold utf8Enc
  split <;> try simp
  split <;> try simp
  split <;> simp

theorem utf16ToCodePoints_ne_nil (s : JStr) (h : s ≠ []) : utf16ToCodePoints s ≠ [] := by
  match s with
  | [] => exact absurd rfl h
  | [u] =>
    unfold utf16ToCodePoints
    split <;> simp
  | u :: v :: rest =>
    unfold utf16ToCodePoints
    split
    · split <;> simp
    · split <;> simp

theorem utf8EncodeAll_ne_nil (cps : List Nat) (h : cps ≠ []) : utf8EncodeAll cps ≠ [] := by
  match cps with
  | [] => exact absurd rfl h
  | c :: cs =>
    unfold utf8EncodeAll
    simp only [List.map_cons, List.flatten_cons]
    intro hcontra
    have := utf8Enc_ne_nil c
    rw [List.append_eq_nil] at hcontra
    exact this hcontra.1

/-- With enough space the greedy encoder writes the whole encoding. -/
theorem encodePoints_full (cps : List Nat) (space : Nat)
    (h : (utf8EncodeAll cps).length ≤ space) :
    encodePoints cps space = utf8EncodeAll cps := by
  induction cps generalizing space with
  | nil => simp [encodePoints, utf8EncodeAll]
  | cons c cs ih =>
    have hall : utf8EncodeAll (c :: cs) = utf8Enc c ++ utf8EncodeAll cs := by
      simp [utf8EncodeAll]
    rw [hall] at h ⊢
    unfold encodePoints
    simp only [List.length_append] at h
    have hfit : (utf8Enc c).length ≤ space := by omega
    rw [if_pos hfit, ih (space - (utf8Enc c).length) (by omega)]

theorem writeStringAsBytes_ok (b : Buf) (off : Nat) (s : JStr)
    (h : off + (strBytes s).length ≤ BUFFER_SIZE) :
    writeStringAsBytes b off s = (setRange b off (strBytes s), off + (strBytes s).length) := by
  unfold writeStringAsBytes
  by_cases ha : isAsciiStr s
  · have hs : strBytes s = s := by simp [strBytes, ha]
    rw [hs] at h ⊢
    by_cases hge : BUFFER_SIZE ≤ off
    · rw [if_pos hge]
      have hlen : s.length = 0 := by omega
      have hnil : s = [] := List.length_eq_zero.mp hlen
      subst hnil
      simp [setRange]
    · rw [if_neg hge, if_pos ha]
      have hmin : min s.length (BUFFER_SIZE - off) = s.length := by omega
      dsimp only
      rw [hmin, List.take_length]
  · have hs : strBytes s = utf8EncodeAll (utf16ToCodePoints s) := by
      simp [strBytes, ha]
    have hne : s ≠ [] := by
      intro hnil
      subst hnil
      simp [isAsciiStr] at ha
    have hbne : strBytes s ≠ [] := by
      rw [hs]
      exact utf8EncodeAll_ne_nil _ (utf16ToCodePoints_ne_nil s hne)
    by_cases hge : BUFFER_SIZE ≤ off
    · exfalso
      have : (strBytes s).length = 0 := by omega
      exact hbne (List.length_eq_zero.mp this)
    · rw [if_neg hge, if_neg ha]
      have henc : encodeInto s (BUFFER_SIZE - off) = strBytes s := by
        rw [hs]
        exact encodePoints_full _ _ (by rw [hs] at h; omega)
      dsimp only
      rw [henc]

theorem writeStringAsBytes_le (b : Buf) (off : Nat) (s : JStr) (h : off ≤ BUFFER_SIZE) :
    (writeStringAsBytes b off s).2 ≤ BUFFER_SIZE ∧ off ≤ (writeStringAsBytes b off s).2 := by
  unfold writeStringAsBytes
  split
  · exact ⟨h, Nat.le_refl off⟩
  · next hlt =>
    split
    · dsimp only
      omega
    · dsimp only
      have := encodePoints_length_le (utf16ToCodePoints s) (BUFFER_SIZE - off)
      unfold encodeInto
      omega

/-! ## Number rendering lemmas -/

theorem digitsLoop_ne_nil (fuel n : Nat) (hf : 0 < fuel) (hn : 0 < n) :
    digitsLoop fuel n ≠ [] := by
  match fuel, n with
  | fuel + 1, n + 1 =>
    unfold digitsLoop
    simp

theorem asciiDigits_ne_nil (n : Nat) (h : 0 < n) : asciiDigits n ≠ [] :=
  digitsLoop_ne_nil n n h h

theorem digitsLoop_le_127 (fuel n : Nat) : ∀ x ∈ digitsLoop fuel n, x ≤ 127 := by
  induction fuel generalizing n with
  | zero =>
    intro x hx
    match n with
    | 0 => simp [digitsLoop] at hx
    | _ + 1 => simp [digitsLoop] at hx
  | succ fuel ih =>
    intro x hx
    match n with
    | 0 => simp [digitsLoop] at hx
    | n + 1 =>
      unfold digitsLoop at hx
      rw [List.mem_append] at hx
      rcases hx with hx | hx
      · exact ih _ x hx
      · have : x = 48 + (n + 1) % 10 := by simpa using hx
        omega

theorem asciiDigits_le_127 (n : Nat) : ∀ x ∈ asciiDigits n, x ≤ 127 :=
  digitsLoop_le_127 n n

theorem stripZeros_pos (m e : Nat) (h : 0 < m) : 0 < (stripZeros m e).1 := by
  induction e generalizing m with
  | zero => simpa [stripZeros]
  | succ e ih =>
    unfold stripZeros
    split
    · next hmod =>
      exact ih (m / 10) (by omega)
    · simpa

theorem decToString_ne_nil (m e : Nat) (h : 0 < m) : decToString m e ≠ [] := by
  unfold decToString
  dsimp only
  split
  · exact asciiDigits_ne_nil _ (stripZeros_pos m e h)
  · simp

theorem decToString_ascii (m e : Nat) : isAsciiStr (decToString m e) = true := by
  rw [isAsciiStr, List.all_eq_true]
  intro x hx
  rw [decide_eq_true_eq]
  unfold decToString at hx
  dsimp only at hx
  have hdig := asciiDigits_le_127 (stripZeros m e).1
  split at hx
  · exact hdig x hx
  · have hpad : ∀ y ∈ (if (asciiDigits (stripZeros m e).1).length ≤ (stripZeros m e).2 then
        List.replicate ((stripZeros m e).2 + 1 - (asciiDigits (stripZeros m e).1).length) 48 ++
          asciiDigits (stripZeros m e).1
      else asciiDigits (stripZeros m e).1), y ≤ 127 := by
      intro y hy
      split at hy
      · rw [List.mem_append] at hy
        rcases hy with hy | hy
        · have := List.eq_of_mem_replicate hy
          omega
        · exact hdig y hy
      · exact hdig y hy
    rw [List.mem_append, List.mem_append] at hx
    rcases hx with (hx | hx) | hx
    · exact hpad x (List.mem_of_mem_take hx)
    · have : x = 46 := by simpa using hx
      omega
    · exact hpad x (List.mem_of_mem_drop hx)

/-- `strBytes` of an ASCII string is the string itself. -/
theorem strBytes_of_ascii (s : JStr) (h : isAsciiStr s = true) : strBytes s = s := by
  simp [strBytes, h]

theorem writeNumberAsBytes_ok (b : Buf) (off : Nat) (n : JSNumber)
    (h : off + (numBytes n).length ≤ BUFFER_SIZE) :
    writeNumberAsBytes b off n = (setRange b off (numBytes n), off + (numBytes n).length) := by
  match n with
  | .nan =>
    have hs : strBytes NAN_STR = NAN_STR := strBytes_of_ascii _ (by decide)
    have hw := writeStringAsBytes_ok b off NAN_STR (by rw [hs]; exact h)
    rw [hs] at hw
    exact hw
  | .posInf =>
    have hs : strBytes INFINITY_STR = INFINITY_STR := strBytes_of_ascii _ (by decide)
    have hw := writeStringAsBytes_ok b off INFINITY_STR (by rw [hs]; exact h)
    rw [hs] at hw
    exact hw
  | .negInf =>
    have hs : strBytes NEG_INFINITY_STR = NEG_INFINITY_STR := strBytes_of_ascii _ (by decide)
    have hw := writeStringAsBytes_ok b off NEG_INFINITY_STR (by rw [hs]; exact h)
    rw [hs] at hw
    exact hw
  | .finite m e =>
    by_cases hz : m.natAbs = 0
    · have hm : ¬m < 0 := by omega
      have hnb : numBytes (.finite m e) = STATIC_BYTES.ZERO := by
        unfold numBytes
        dsimp only
        rw [if_pos hz]
      rw [hnb] at h ⊢
      unfold writeNumberAsBytes
      dsimp only
      rw [if_neg hm]
      rw [if_pos hz]
      exact writeBytes_ok b off STATIC_BYTES.ZERO h
    · by_cases hint : 10 ^ e ∣ m.natAbs ∧ m.natAbs / 10 ^ e < MAX_SAFE_INTEGER
      · by_cases hm : m < 0
        · have hnb : numBytes (.finite m e) =
              STATIC_BYTES.MINUS ++ asciiDigits (m.natAbs / 10 ^ e) := by
            unfold numBytes
            dsimp only
            rw [if_neg hz, if_pos hint, if_pos hm]
          rw [hnb] at h ⊢
          have hlen : (STATIC_BYTES.MINUS ++ asciiDigits (m.natAbs / 10 ^ e)).length =
              1 + (asciiDigits (m.natAbs / 10 ^ e)).length := by
            simp [STATIC_BYTES.MINUS]
            omega
          unfold writeNumberAsBytes
          dsimp only
          rw [if_pos hm]
          have hminus := writeBytes_ok b off STATIC_BYTES.MINUS
            (by simp only [hlen] at h; simp [STATIC_BYTES.MINUS]; omega)
          rw [hminus]
          rw [if_neg hz, if_pos hint]
          dsimp only
          rw [if_neg (show ¬BUFFER_SIZE < off + STATIC_BYTES.MINUS.length +
            (asciiDigits (m.natAbs / 10 ^ e)).length by
              simp only [hlen] at h
              simp only [STATIC_BYTES.MINUS, List.length_cons, List.length_nil]
              omega)]
          rw [setRange_append]
          simp only [Prod.mk.injEq, List.length_append]
          exact ⟨trivial, by omega⟩
        · have hnb : numBytes (.finite m e) = asciiDigits (m.natAbs / 10 ^ e) := by
            unfold numBytes
            dsimp only
            rw [if_neg hz, if_pos hint, if_neg hm]
            exact List.nil_append _
          rw [hnb] at h ⊢
          unfold writeNumberAsBytes
          dsimp only
          rw [if_neg hm]
          rw [if_neg hz, if_pos hint]
          dsimp only
          rw [if_neg (by omega)]
      · have hnb : numBytes (.finite m e) = decToString m.natAbs e := by
          unfold numBytes
          dsimp only
          rw [if_neg hz, if_neg hint]
        rw [hnb] at h ⊢
        have hstr : strBytes (decToString m.natAbs e) = decToString m.natAbs e :=
          strBytes_of_ascii _ (decToString_ascii m.natAbs e)
        have hmpos : 0 < m.natAbs := by omega
        have hne := decToString_ne_nil m.natAbs e hmpos
        by_cases hm : m < 0
        · have hlen : 0 < (decToString m.natAbs e).length := List.length_pos.mpr hne
          unfold writeNumberAsBytes
          dsimp only
          rw [if_pos hm]
          have hminus := writeBytes_ok b off STATIC_BYTES.MINUS
            (by simp [STATIC_BYTES.MINUS]; omega)
          rw [hminus]
          rw [if_neg hz, if_neg hint]
          have hw := writeStringAsBytes_ok (setRange b off STATIC_BYTES.MINUS) off
            (decToString m.natAbs e) (by rw [hstr]; exact h)
          rw [hstr] at hw
          rw [hw]
          obtain ⟨y, ys, hys⟩ := List.exists_cons_of_ne_nil hne
          rw [hys, show STATIC_BYTES.MINUS = [45] from rfl, setRange_overwrite_head]
        · unfold writeNumberAsBytes
          dsimp only
          rw [if_neg hm]
          rw [if_neg hz, if_neg hint]
          have hw := writeStringAsBytes_ok b off (decToString m.natAbs e)
            (by rw [hstr]; exact h)
          rw [hstr] at hw
          exact hw

theorem writeNumberAsBytes_le (b : Buf) (off : Nat) (n : JSNumber) (h : off ≤ BUFFER_SIZE) :
    (writeNumberAsBytes b off n).2 ≤ BUFFER_SIZE ∧ off ≤ (writeNumberAsBytes b off n).2 := by
  match n with
  | .nan => exact writeStringAsBytes_le b off NAN_STR h
  | .posInf => exact writeStringAsBytes_le b off INFINITY_STR h
  | .negInf => exact writeStringAsBytes_le b off NEG_INFINITY_STR h
  | .finite m e =>
    unfold writeNumberAsBytes
    dsimp only
    by_cases hm : m < 0
    · rw [if_pos hm]
      have h1 := writeBytes_le b off STATIC_BYTES.MINUS h
      split
      · have h2 := writeBytes_le (writeBytes b off STATIC_BYTES.MINUS).1
          (writeBytes b off STATIC_BYTES.MINUS).2 STATIC_BYTES.ZERO h1.1
        exact ⟨h2.1, Nat.le_trans h1.2 h2.2⟩
      · split
        · split
          · exact ⟨h1.1, h1.2⟩
          · next hfits =>
            exact ⟨by omega, by omega⟩
        · have h2 := writeStringAsBytes_le (writeBytes b off STATIC_BYTES.MINUS).1 off
            (decToString m.natAbs e) h
          exact ⟨h2.1, h2.2⟩
    · rw [if_neg hm]
      split
      · exact writeBytes_le b off STATIC_BYTES.ZERO h
      · split
        · split
          · exact ⟨h, Nat.le_refl off⟩
          · next hfits =>
            exact ⟨by omega, by omega⟩
        · exact writeStringAsBytes_le b off (decToString m.natAbs e) h

mutual

theorem serializeValueToBuffer_le (v : Value) : ∀ (b : Buf) (off : Nat), off ≤ BUFFER_SIZE →
    (serializeValueToBuffer b off v).2 ≤ BUFFER_SIZE ∧
      off ≤ (serializeValueToBuffer b off v).2 := by
  match v with
  | .null => exact fun b off h => writeBytes_le b off STATIC_BYTES.NULL h
  | .undef => exact fun b off h => writeBytes_le b off STATIC_BYTES.UNDEFINED h
  | .str s => exact fun b off h => writeStringAsBytes_le b off s h
  | .num n => exact fun b off h => writeNumberAsBytes_le b off n h
  | .bool bv =>
    intro b off h
    unfold serializeValueToBuffer
    exact writeBytes_le b off (if bv then STATIC_BYTES.TRUE else STATIC_BYTES.FALSE) h
  | .coerced s => exact fun b off h => writeStringAsBytes_le b off s h
  | .withToString s => exact fun b off h => writeStringAsBytes_le b off s h
  | .arr xs =>
    intro b off h
    unfold serializeValueToBuffer
    dsimp only
    have h1 := writeBytes_le b off STATIC_BYTES.BRACKET_OPEN h
    have h2 := serializeArrayElems_le xs (writeBytes b off STATIC_BYTES.BRACKET_OPEN).1
      (writeBytes b off STATIC_BYTES.BRACKET_OPEN).2 true h1.1
    have h3 := writeBytes_le
      (serializeArrayElems (writeBytes b off STATIC_BYTES.BRACKET_OPEN).1
        (writeBytes b off STATIC_BYTES.BRACKET_OPEN).2 true xs).1
      (serializeArrayElems (writeBytes b off STATIC_BYTES.BRACKET_OPEN).1
        (writeBytes b off STATIC_BYTES.BRACKET_OPEN).2 true xs).2
      STATIC_BYTES.BRACKET_CLOSE h2.1
    exact ⟨h3.1, by omega⟩
  | .obj fs =>
    intro b off h
    unfold serializeValueToBuffer
    dsimp only
    have h1 := writeBytes_le b off STATIC_BYTES.BRACE_OPEN h
    have h2 := serializeObjectFields_le fs (writeBytes b off STATIC_BYTES.BRACE_OPEN).1
      (writeBytes b off STATIC_BYTES.BRACE_OPEN).2 true h1.1
    have h3 := writeBytes_le
      (serializeObjectFields (writeBytes b off STATIC_BYTES.BRACE_OPEN).1
        (writeBytes b off STATIC_BYTES.BRACE_OPEN).2 true fs).1
      (serializeObjectFields (writeBytes b off STATIC_BYTES.BRACE_OPEN).1
        (writeBytes b off STATIC_BYTES.BRACE_OPEN).2 true fs).2
      STATIC_BYTES.BRACE_CLOSE h2.1
    exact ⟨h3.1, by omega⟩

theorem serializeArrayElems_le (xs : ValueList) :
    ∀ (b : Buf) (off : Nat) (isFirst : Bool), off ≤ BUFFER_SIZE →
    (serializeArrayElems b off isFirst xs).2 ≤ BUFFER_SIZE ∧
      off ≤ (serializeArrayElems b off isFirst xs).2 := by
  match xs with
  | .nil =>
    intro b off isFirst h
    exact ⟨h, Nat.le_refl off⟩
  | .cons v tl =>
    intro b off isFirst h
    unfold serializeArrayElems
    dsimp only
    have hr : ((if isFirst then (b, off) else writeBytes b off STATIC_BYTES.COMMA)).2 ≤
        BUFFER_SIZE ∧ off ≤ ((if isFirst then (b, off) else writeBytes b off
        STATIC_BYTES.COMMA)).2 := by
      cases isFirst with
      | true => exact ⟨h, Nat.le_refl off⟩
      | false => exact writeBytes_le b off STATIC_BYTES.COMMA h
    set r := if isFirst then (b, off) else writeBytes b off STATIC_BYTES.COMMA with hrdef
    have h2 := serializeValueToBuffer_le v r.1 r.2 hr.1
    set rv := serializeValueToBuffer r.1 r.2 v with hrvdef
    have h3 := serializeArrayElems_le tl rv.1 rv.2 false h2.1
    exact ⟨h3.1, by omega⟩

theorem serializeObjectFields_le (fs : FieldList) :
    ∀ (b : Buf) (off : Nat) (isFirst : Bool), off ≤ BUFFER_SIZE →
    (serializeObjectFields b off isFirst fs).2 ≤ BUFFER_SIZE ∧
      off ≤ (serializeObjectFields b off isFirst fs).2 := by
  match fs with
  | .nil =>
    intro b off isFirst h
    exact ⟨h, Nat.le_refl off⟩
  | .cons k v tl =>
    intro b off isFirst h
    unfold serializeObjectFields
    dsimp only
    have hr : ((if isFirst then (b, off) else writeBytes b off STATIC_BYTES.COMMA)).2 ≤
        BUFFER_SIZE ∧ off ≤ ((if isFirst then (b, off) else writeBytes b off
        STATIC_BYTES.COMMA)).2 := by
      cases isFirst with
      | true => exact ⟨h, Nat.le_refl off⟩
      | false => exact writeBytes_le b off STATIC_BYTES.COMMA h
    set r := if isFirst then (b, off) else writeBytes b off STATIC_BYTES.COMMA with hrdef
    have hq := writeBytes_le r.1 r.2 STATIC_BYTES.QUOTE hr.1
    have hk := writeStringAsBytes_le (writeBytes r.1 r.2 STATIC_BYTES.QUOTE).1
      (writeBytes r.1 r.2 STATIC_BYTES.QUOTE).2 k hq.1
    set rk := writeStringAsBytes (writeBytes r.1 r.2 STATIC_BYTES.QUOTE).1
      (writeBytes r.1 r.2 STATIC_BYTES.QUOTE).2 k with hrkdef
    have hq2 := writeBytes_le rk.1 rk.2 STATIC_BYTES.QUOTE hk.1
    set rq2 := writeBytes rk.1 rk.2 STATIC_BYTES.QUOTE with hrq2def
    have hc := writeBytes_le rq2.1 rq2.2 STATIC_BYTES.COLON hq2.1
    set rc := writeBytes rq2.1 rq2.2 STATIC_BYTES.COLON with hrcdef
    have hv := serializeValueToBuffer_le v rc.1 rc.2 hc.1
    set rv := serializeValueToBuffer rc.1 rc.2 v with hrvdef
    have ht := serializeObjectFields_le tl rv.1 rv.2 false hv.1
    exact ⟨ht.1, by omega⟩

end

theorem ite_true_bool {α : Type} (a b : α) : (if (true : Bool) = true then a else b) = a := rfl

theorem ite_false_bool {α : Type} (a b : α) : (if (false : Bool) = true then a else b) = b := rfl

/-- Composition of two buffer writers that each append their bytes. -/
theorem comp_ok (w : Buf → Nat → Buf × Nat) (x : List Nat)
    (k : Buf → Nat → Buf × Nat) (y : List Nat)
    (hw : ∀ (b : Buf) (o : Nat), o + x.length ≤ BUFFER_SIZE →
      w b o = (setRange b o x, o + x.length))
    (hk : ∀ (b : Buf) (o : Nat), o + y.length ≤ BUFFER_SIZE →
      k b o = (setRange b o y, o + y.length))
    (b : Buf) (off : Nat) (h : off + (x ++ y).length ≤ BUFFER_SIZE) :
    k (w b off).1 (w b off).2 = (setRange b off (x ++ y), off + (x ++ y).length) := by
  simp only [List.length_append] at h
  rw [hw b off (by omega)]
  rw [hk _ _ (by omega)]
  rw [setRange_append]
  simp only [Prod.mk.injEq, List.length_append]
  exact ⟨trivial, by omega⟩

/-- The optional separator write of the element loops. -/
theorem maybe_write_ok (c : Bool) (sep : List Nat) (b : Buf) (o : Nat)
    (h : o + (if c then [] else sep).length ≤ BUFFER_SIZE) :
    (if c then (b, o) else writeBytes b o sep) =
      (setRange b o (if c then [] else sep), o + (if c then [] else sep).length) := by
  cases c with
  | true =>
    simp only [ite_true_bool]
    exact Prod.ext rfl rfl
  | false =>
    simp only [ite_false_bool] at h ⊢
    exact writeBytes_ok b o sep h

mutual

theorem serializeValueToBuffer_ok (v : Value) : ∀ (b : Buf) (off : Nat),
    off + (serializeBytes v).length ≤ BUFFER_SIZE →
    serializeValueToBuffer b off v =
      (setRange b off (serializeBytes v), off + (serializeBytes v).length) := by
  match v with
  | .null => exact fun b off h => writeBytes_ok b off STATIC_BYTES.NULL h
  | .undef => exact fun b off h => writeBytes_ok b off STATIC_BYTES.UNDEFINED h
  | .str s => exact fun b off h => writeStringAsBytes_ok b off s h
  | .num n => exact fun b off h => writeNumberAsBytes_ok b off n h
  | .bool bv =>
    exact fun b off h =>
      writeBytes_ok b off (if bv then STATIC_BYTES.TRUE else STATIC_BYTES.FALSE) h
  | .coerced s => exact fun b off h => writeStringAsBytes_ok b off s h
  | .withToString s => exact fun b off h => writeStringAsBytes_ok b off s h
  | .arr xs =>
    intro b off h
    have hbytes : serializeBytes (.arr xs) =
        STATIC_BYTES.BRACKET_OPEN ++ (arrElemsBytes true xs ++ STATIC_BYTES.BRACKET_CLOSE) := by
      unfold serializeBytes
      rw [List.append_assoc]
    rw [hbytes] at h ⊢
    exact comp_ok (fun b2 o2 => writeBytes b2 o2 STATIC_BYTES.BRACKET_OPEN)
      STATIC_BYTES.BRACKET_OPEN
      (fun b2 o2 => writeBytes (serializeArrayElems b2 o2 true xs).1
        (serializeArrayElems b2 o2 true xs).2 STATIC_BYTES.BRACKET_CLOSE)
      (arrElemsBytes true xs ++ STATIC_BYTES.BRACKET_CLOSE)
      (fun b2 o2 h2 => writeBytes_ok b2 o2 STATIC_BYTES.BRACKET_OPEN h2)
      (fun b2 o2 h2 => comp_ok (fun b3 o3 => serializeArrayElems b3 o3 true xs)
        (arrElemsBytes true xs)
        (fun b3 o3 => writeBytes b3 o3 STATIC_BYTES.BRACKET_CLOSE)
        STATIC_BYTES.BRACKET_CLOSE
        (fun b3 o3 h3 => serializeArrayElems_ok xs b3 o3 true h3)
        (fun b3 o3 h3 => writeBytes_ok b3 o3 STATIC_BYTES.BRACKET_CLOSE h3)
        b2 o2 h2)
      b off h
  | .obj fs =>
    intro b off h
    have hbytes : serializeBytes (.obj fs) =
        STATIC_BYTES.BRACE_OPEN ++ (objFieldsBytes true fs ++ STATIC_BYTES.BRACE_CLOSE) := by
      unfold serializeBytes
      rw [List.append_assoc]
    rw [hbytes] at h ⊢
    exact comp_ok (fun b2 o2 => writeBytes b2 o2 STATIC_BYTES.BRACE_OPEN)
      STATIC_BYTES.BRACE_OPEN
      (fun b2 o2 => writeBytes (serializeObjectFields b2 o2 true fs).1
        (serializeObjectFields b2 o2 true fs).2 STATIC_BYTES.BRACE_CLOSE)
      (objFieldsBytes true fs ++ STATIC_BYTES.BRACE_CLOSE)
      (fun b2 o2 h2 => writeBytes_ok b2 o2 STATIC_BYTES.BRACE_OPEN h2)
      (fun b2 o2 h2 => comp_ok (fun b3 o3 => serializeObjectFields b3 o3 true fs)
        (objFieldsBytes true fs)
        (fun b3 o3 => writeBytes b3 o3 STATIC_BYTES.BRACE_CLOSE)
        STATIC_BYTES.BRACE_CLOSE
        (fun b3 o3 h3 => serializeObjectFields_ok fs b3 o3 true h3)
        (fun b3 o3 h3 => writeBytes_ok b3 o3 STATIC_BYTES.BRACE_CLOSE h3)
        b2 o2 h2)
      b off h

theorem serializeArrayElems_ok (xs : ValueList) : ∀ (b : Buf) (off : Nat) (isFirst : Bool),
    off + (arrElemsBytes isFirst xs).length ≤ BUFFER_SIZE →
    serializeArrayElems b off isFirst xs =
      (setRange b off (arrElemsBytes isFirst xs), off + (arrElemsBytes isFirst xs).length) := by
  match xs with
  | .nil =>
    intro b off isFirst h
    exact Prod.ext rfl rfl
  | .cons v tl =>
    intro b off isFirst h
    have hbytes : arrElemsBytes isFirst (.cons v tl) =
        (if isFirst then [] else STATIC_BYTES.COMMA) ++
          (serializeBytes v ++ arrElemsBytes false tl) := by
      rw [show arrElemsBytes isFirst (.cons v tl) =
        (if isFirst then [] else STATIC_BYTES.COMMA) ++ serializeBytes v ++
          arrElemsBytes false tl from rfl]
      rw [List.append_assoc]
    rw [hbytes] at h ⊢
    exact comp_ok
      (fun b2 o2 => if isFirst then (b2, o2) else writeBytes b2 o2 STATIC_BYTES.COMMA)
      (if isFirst then [] else STATIC_BYTES.COMMA)
      (fun b2 o2 => serializeArrayElems (serializeValueToBuffer b2 o2 v).1
        (serializeValueToBuffer b2 o2 v).2 false tl)
      (serializeBytes v ++ arrElemsBytes false tl)
      (fun b2 o2 h2 => maybe_write_ok isFirst STATIC_BYTES.COMMA b2 o2 h2)
      (fun b2 o2 h2 => comp_ok (fun b3 o3 => serializeValueToBuffer b3 o3 v)
        (serializeBytes v)
        (fun b3 o3 => serializeArrayElems b3 o3 false tl)
        (arrElemsBytes false tl)
        (fun b3 o3 h3 => serializeValueToBuffer_ok v b3 o3 h3)
        (fun b3 o3 h3 => serializeArrayElems_ok tl b3 o3 false h3)
        b2 o2 h2)
      b off h

theorem serializeObjectFields_ok (fs : FieldList) : ∀ (b : Buf) (off : Nat) (isFirst : Bool),
    off + (objFieldsBytes isFirst fs).length ≤ BUFFER_SIZE →
    serializeObjectFields b off isFirst fs =
      (setRange b off (objFieldsBytes isFirst fs), off + (objFieldsBytes isFirst fs).length) := by
  match fs with
  | .nil =>
    intro b off isFirst h
    exact Prod.ext rfl rfl
  | .cons k v tl =>
    intro b off isFirst h
    have hbytes : objFieldsBytes isFirst (.cons k v tl) =
        (if isFirst then [] else STATIC_BYTES.COMMA) ++
          (STATIC_BYTES.QUOTE ++ (strBytes k ++ (STATIC_BYTES.QUOTE ++ (STATIC_BYTES.COLON ++
            (serializeBytes v ++ objFieldsBytes false tl))))) := by
      rw [show objFieldsBytes isFirst (.cons k v tl) =
        (if isFirst then [] else STATIC_BYTES.COMMA) ++ STATIC_BYTES.QUOTE ++ strBytes k ++
          STATIC_BYTES.QUOTE ++ STATIC_BYTES.COLON ++ serializeBytes v ++
          objFieldsBytes false tl from rfl]
      simp only [List.append_assoc]
    rw [hbytes] at h ⊢
    exact comp_ok
      (fun b2 o2 => if isFirst then (b2, o2) else writeBytes b2 o2 STATIC_BYTES.COMMA)
      (if isFirst then [] else STATIC_BYTES.COMMA)
      (fun b2 o2 =>
        serializeObjectFields
          (serializeValueToBuffer
            (writeBytes (writeBytes (writeStringAsBytes (writeBytes b2 o2 STATIC_BYTES.QUOTE).1
              (writeBytes b2 o2 STATIC_BYTES.QUOTE).2 k).1
              (writeStringAsBytes (writeBytes b2 o2 STATIC_BYTES.QUOTE).1
                (writeBytes b2 o2 STATIC_BYTES.QUOTE).2 k).2 STATIC_BYTES.QUOTE).1
              (writeBytes (writeStringAsBytes (writeBytes b2 o2 STATIC_BYTES.QUOTE).1
                (writeBytes b2 o2 STATIC_BYTES.QUOTE).2 k).1
                (writeStringAsBytes (writeBytes b2 o2 STATIC_BYTES.QUOTE).1
                  (writeBytes b2 o2 STATIC_BYTES.QUOTE).2 k).2 STATIC_BYTES.QUOTE).2
              STATIC_BYTES.COLON).1
            (writeBytes (writeBytes (writeStringAsBytes (writeBytes b2 o2 STATIC_BYTES.QUOTE).1
              (writeBytes b2 o2 STATIC_BYTES.QUOTE).2 k).1
              (writeStringAsBytes (writeBytes b2 o2 STATIC_BYTES.QUOTE).1
                (writeBytes b2 o2 STATIC_BYTES.QUOTE).2 k).2 STATIC_BYTES.QUOTE).1
              (writeBytes (writeStringAsBytes (writeBytes b2 o2 STATIC_BYTES.QUOTE).1
                (writeBytes b2 o2 STATIC_BYTES.QUOTE).2 k).1
                (writeStringAsBytes (writeBytes b2 o2 STATIC_BYTES.QUOTE).1
                  (writeBytes b2 o2 STATIC_BYTES.QUOTE).2 k).2 STATIC_BYTES.QUOTE).2
              STATIC_BYTES.COLON).2 v).1
          (serializeValueToBuffer
            (writeBytes (writeBytes (writeStringAsBytes (writeBytes b2 o2 STATIC_BYTES.QUOTE).1
              (writeBytes b2 o2 STATIC_BYTES.QUOTE).2 k).1
              (writeStringAsBytes (writeBytes b2 o2 STATIC_BYTES.QUOTE).1
                (writeBytes b2 o2 STATIC_BYTES.QUOTE).2 k).2 STATIC_BYTES.QUOTE).1
              (writeBytes (writeStringAsBytes (writeBytes b2 o2 STATIC_BYTES.QUOTE).1
                (writeBytes b2 o2 STATIC_BYTES.QUOTE).2 k).1
                (writeStringAsBytes (writeBytes b2 o2 STATIC_BYTES.QUOTE).1
                  (writeBytes b2 o2 STATIC_BYTES.QUOTE).2 k).2 STATIC_BYTES.QUOTE).2
              STATIC_BYTES.COLON).1
            (writeBytes (writeBytes (writeStringAsBytes (writeBytes b2 o2 STATIC_BYTES.QUOTE).1
              (writeBytes b2 o2 STATIC_BYTES.QUOTE).2 k).1
              (writeStringAsBytes (writeBytes b2 o2 STATIC_BYTES.QUOTE).1
                (writeBytes b2 o2 STATIC_BYTES.QUOTE).2 k).2 STATIC_BYTES.QUOTE).1
              (writeBytes (writeStringAsBytes (writeBytes b2 o2 STATIC_BYTES.QUOTE).1
                (writeBytes b2 o2 STATIC_BYTES.QUOTE).2 k).1
                (writeStringAsBytes (writeBytes b2 o2 STATIC_BYTES.QUOTE).1
                  (writeBytes b2 o2 STATIC_BYTES.QUOTE).2 k).2 STATIC_BYTES.QUOTE).2
              STATIC_BYTES.COLON).2 v).2 false tl)
      (STATIC_BYTES.QUOTE ++ (strBytes k ++ (STATIC_BYTES.QUOTE ++ (STATIC_BYTES.COLON ++
        (serializeBytes v ++ objFieldsBytes false tl)))))
      (fun b2 o2 h2 => maybe_write_ok isFirst STATIC_BYTES.COMMA b2 o2 h2)
      (fun b2 o2 h2 => comp_ok (fun b3 o3 => writeBytes b3 o3 STATIC_BYTES.QUOTE)
        STATIC_BYTES.QUOTE _
        (strBytes k ++ (STATIC_BYTES.QUOTE ++ (STATIC_BYTES.COLON ++
          (serializeBytes v ++ objFieldsBytes false tl))))
        (fun b3 o3 h3 => writeBytes_ok b3 o3 STATIC_BYTES.QUOTE h3)
        (fun b3 o3 h3 => comp_ok (fun b4 o4 => writeStringAsBytes b4 o4 k)
          (strBytes k) _
          (STATIC_BYTES.QUOTE ++ (STATIC_BYTES.COLON ++
            (serializeBytes v ++ objFieldsBytes false tl)))
          (fun b4 o4 h4 => writeStringAsBytes_ok b4 o4 k h4)
          (fun b4 o4 h4 => comp_ok (fun b5 o5 => writeBytes b5 o5 STATIC_BYTES.QUOTE)
            STATIC_BYTES.QUOTE _
            (STATIC_BYTES.COLON ++ (serializeBytes v ++ objFieldsBytes false tl))
            (fun b5 o5 h5 => writeBytes_ok b5 o5 STATIC_BYTES.QUOTE h5)
            (fun b5 o5 h5 => comp_ok (fun b6 o6 => writeBytes b6 o6 STATIC_BYTES.COLON)
              STATIC_BYTES.COLON _
              (serializeBytes v ++ objFieldsBytes false tl)
              (fun b6 o6 h6 => writeBytes_ok b6 o6 STATIC_BYTES.COLON h6)
              (fun b6 o6 h6 => comp_ok (fun b7 o7 => serializeValueToBuffer b7 o7 v)
                (serializeBytes v)
                (fun b7 o7 => serializeObjectFields b7 o7 false tl)
                (objFieldsBytes false tl)
                (fun b7 o7 h7 => serializeValueToBuffer_ok v b7 o7 h7)
                (fun b7 o7 h7 => serializeObjectFields_ok tl b7 o7 false h7)
                b6 o6 h6)
              b5 o5 h5)
            b4 o4 h4)
          b3 o3 h3)
        b2 o2 h2)
      b off h

end

/-- Composition with a continuation returning the loop's flag as well. -/
theorem comp_ok3 (w : Buf → Nat → Buf × Nat) (x : List Nat)
    (k : Buf → Nat → Buf × Nat × Bool) (y : List Nat) (fl : Bool)
    (hw : ∀ (b : Buf) (o : Nat), o + x.length ≤ BUFFER_SIZE →
      w b o = (setRange b o x, o + x.length))
    (hk : ∀ (b : Buf) (o : Nat), o + y.length ≤ BUFFER_SIZE →
      k b o = (setRange b o y, o + y.length, fl))
    (b : Buf) (off : Nat) (h : off + (x ++ y).length ≤ BUFFER_SIZE) :
    k (w b off).1 (w b off).2 = (setRange b off (x ++ y), off + (x ++ y).length, fl) := by
  simp only [List.length_append] at h
  rw [hw b off (by omega)]
  rw [hk _ _ (by omega)]
  rw [setRange_append]
  simp only [Prod.mk.injEq, List.length_append]
  exact ⟨trivial, by omega, trivial⟩

/-- The optional leading separator of the attribute loop (reversed if). -/
theorem maybe_sep_ok (c : Bool) (sep : List Nat) (b : Buf) (o : Nat)
    (h : o + (if c then sep else []).length ≤ BUFFER_SIZE) :
    (if c then writeBytes b o sep else (b, o)) =
      (setRange b o (if c then sep else []), o + (if c then sep else []).length) := by
  cases c with
  | true =>
    simp only [ite_true_bool] at h ⊢
    exact writeBytes_ok b o sep h
  | false =>
    simp only [ite_false_bool]
    exact Prod.ext rfl rfl

theorem buildAttrsLoop_ok (fs : FieldList) : ∀ (b : Buf) (pos : Nat) (hasAny : Bool),
    pos + (attrsLoopBytes hasAny fs).length ≤ BUFFER_SIZE →
    buildAttrsLoop b pos hasAny fs =
      (setRange b pos (attrsLoopBytes hasAny fs), pos + (attrsLoopBytes hasAny fs).length,
        hasAny || hasOwnProperties fs) := by
  match fs with
  | .nil =>
    intro b pos hasAny h
    simp only [hasOwnProperties, Bool.or_false]
    exact Prod.ext rfl rfl
  | .cons k v tl =>
    intro b pos hasAny h
    have hbytes : attrsLoopBytes hasAny (.cons k v tl) =
        (if hasAny then STATIC_BYTES.SPACE else []) ++
          (strBytes k ++ (STATIC_BYTES.EQUALS ++
            (serializeBytes v ++ attrsLoopBytes true tl))) := by
      rw [show attrsLoopBytes hasAny (.cons k v tl) =
        (if hasAny then STATIC_BYTES.SPACE else []) ++ strBytes k ++ STATIC_BYTES.EQUALS ++
          serializeBytes v ++ attrsLoopBytes true tl from rfl]
      simp only [List.append_assoc]
    have hflag : (hasAny || hasOwnProperties (FieldList.cons k v tl)) = true := by
      simp [hasOwnProperties]
    rw [hbytes] at h ⊢
    rw [hflag]
    exact comp_ok3
      (fun b2 o2 => if hasAny then writeBytes b2 o2 STATIC_BYTES.SPACE else (b2, o2))
      (if hasAny then STATIC_BYTES.SPACE else [])
      (fun b2 o2 =>
        buildAttrsLoop
          (serializeValueToBuffer
            (writeBytes (writeStringAsBytes b2 o2 k).1 (writeStringAsBytes b2 o2 k).2
              STATIC_BYTES.EQUALS).1
            (writeBytes (writeStringAsBytes b2 o2 k).1 (writeStringAsBytes b2 o2 k).2
              STATIC_BYTES.EQUALS).2 v).1
          (serializeValueToBuffer
            (writeBytes (writeStringAsBytes b2 o2 k).1 (writeStringAsBytes b2 o2 k).2
              STATIC_BYTES.EQUALS).1
            (writeBytes (writeStringAsBytes b2 o2 k).1 (writeStringAsBytes b2 o2 k).2
              STATIC_BYTES.EQUALS).2 v).2 true tl)
      (strBytes k ++ (STATIC_BYTES.EQUALS ++ (serializeBytes v ++ attrsLoopBytes true tl)))
      true
      (fun b2 o2 h2 => maybe_sep_ok hasAny STATIC_BYTES.SPACE b2 o2 h2)
      (fun b2 o2 h2 => comp_ok3 (fun b3 o3 => writeStringAsBytes b3 o3 k) (strBytes k)
        _ (STATIC_BYTES.EQUALS ++ (serializeBytes v ++ attrsLoopBytes true tl)) true
        (fun b3 o3 h3 => writeStringAsBytes_ok b3 o3 k h3)
        (fun b3 o3 h3 => comp_ok3 (fun b4 o4 => writeBytes b4 o4 STATIC_BYTES.EQUALS)
          STATIC_BYTES.EQUALS _ (serializeBytes v ++ attrsLoopBytes true tl) true
          (fun b4 o4 h4 => writeBytes_ok b4 o4 STATIC_BYTES.EQUALS h4)
          (fun b4 o4 h4 => comp_ok3 (fun b5 o5 => serializeValueToBuffer b5 o5 v)
            (serializeBytes v)
            (fun b5 o5 => buildAttrsLoop b5 o5 true tl)
            (attrsLoopBytes true tl) true
            (fun b5 o5 h5 => serializeValueToBuffer_ok v b5 o5 h5)
            (fun b5 o5 h5 => by
              show buildAttrsLoop b5 o5 true tl = _
              rw [buildAttrsLoop_ok tl b5 o5 true h5]
              simp [Bool.true_or])
            b4 o4 h4)
          b3 o3 h3)
        b2 o2 h2)
      b pos h

theorem buildAttrsLoop_le (fs : FieldList) : ∀ (b : Buf) (pos : Nat) (hasAny : Bool),
    pos ≤ BUFFER_SIZE →
    (buildAttrsLoop b pos hasAny fs).2.1 ≤ BUFFER_SIZE ∧
      pos ≤ (buildAttrsLoop b pos hasAny fs).2.1 := by
  match fs with
  | .nil =>
    intro b pos hasAny h
    exact ⟨h, Nat.le_refl pos⟩
  | .cons k v tl =>
    intro b pos hasAny h
    unfold buildAttrsLoop
    dsimp only
    have hr : ((if hasAny then writeBytes b pos STATIC_BYTES.SPACE else (b, pos))).2 ≤
        BUFFER_SIZE ∧ pos ≤ ((if hasAny then writeBytes b pos STATIC_BYTES.SPACE
        else (b, pos))).2 := by
      cases hasAny with
      | true => exact writeBytes_le b pos STATIC_BYTES.SPACE h
      | false => exact ⟨h, Nat.le_refl pos⟩
    set r := if hasAny then writeBytes b pos STATIC_BYTES.SPACE else (b, pos) with hrdef
    have hk := writeStringAsBytes_le r.1 r.2 k hr.1
    set rk := writeStringAsBytes r.1 r.2 k with hrkdef
    have he := writeBytes_le rk.1 rk.2 STATIC_BYTES.EQUALS hk.1
    set re := writeBytes rk.1 rk.2 STATIC_BYTES.EQUALS with hredef
    have hv := serializeValueToBuffer_le v re.1 re.2 he.1
    set rv := serializeValueToBuffer re.1 re.2 v with hrvdef
    have ht := buildAttrsLoop_le tl rv.1 rv.2 true hv.1
    exact ⟨ht.1, by omega⟩

theorem buildAttributesToBuffer_ok (defaults : FieldList) (attrs : Option FieldList)
    (b : Buf) (off : Nat)
    (h : off + (buildAttrsBytes defaults attrs).length ≤ BUFFER_SIZE) :
    buildAttributesToBuffer defaults b off attrs =
      (setRange b off (buildAttrsBytes defaults attrs),
        off + (buildAttrsBytes defaults attrs).length) := by
  match attrs with
  | none =>
    have hb : buildAttrsBytes defaults none = attrsLoopBytes false defaults := by
      unfold buildAttrsBytes
      exact List.append_nil _
    rw [hb] at h ⊢
    unfold buildAttributesToBuffer
    rw [buildAttrsLoop_ok defaults b off false h]
  | some a =>
    have hb : buildAttrsBytes defaults (some a) =
        attrsLoopBytes false defaults ++ attrsLoopBytes (hasOwnProperties defaults) a := rfl
    rw [hb] at h ⊢
    unfold buildAttributesToBuffer
    simp only [List.length_append] at h
    rw [buildAttrsLoop_ok defaults b off false (by omega)]
    dsimp only
    have hflag : (false || hasOwnProperties defaults) = hasOwnProperties defaults := by
      simp
    rw [hflag]
    rw [buildAttrsLoop_ok a _ _ (hasOwnProperties defaults) (by omega)]
    rw [setRange_append]
    simp only [Prod.mk.injEq, List.length_append]
    exact ⟨trivial, by omega⟩

theorem buildAttributesToBuffer_le (defaults : FieldList) (attrs : Option FieldList)
    (b : Buf) (off : Nat) (h : off ≤ BUFFER_SIZE) :
    (buildAttributesToBuffer defaults b off attrs).2 ≤ BUFFER_SIZE ∧
      off ≤ (buildAttributesToBuffer defaults b off attrs).2 := by
  unfold buildAttributesToBuffer
  match attrs with
  | none =>
    dsimp only
    exact buildAttrsLoop_le defaults b off false h
  | some a =>
    dsimp only
    have h1 := buildAttrsLoop_le defaults b off false h
    set r := buildAttrsLoop b off false defaults with hrdef
    have h2 := buildAttrsLoop_le a r.1 r.2.1 r.2.2 h1.1
    exact ⟨h2.1, by omega⟩

/-! ## Flush and dispatch lemmas -/

theorem readRange_length (b : Buf) (off n : Nat) : (readRange b off n).length = n := by
  simp [readRange]

theorem readRange_getLast (b : Buf) (n : Nat) (h : 0 < n) :
    (readRange b 0 n).getLast? = some (b (n - 1)) := by
  rw [List.getLast?_eq_getElem?]
  rw [readRange_length]
  unfold readRange
  rw [List.getElem?_map]
  rw [List.getElem?_range (by omega)]
  simp

theorem setRange_single_at (b : Buf) (i x : Nat) : setRange b i [x] i = x := by
  show bufWrite b i x i = x
  simp [bufWrite]

theorem bufWrite_at (b : Buf) (i v : Nat) : bufWrite b i v i = v := by
  simp [bufWrite]

/-- The channel of the single flushed write of `renderTail`. -/
theorem renderTail_channels (st : LogState) (b : Buf) (pos : Nat) (msg : JStr)
    (attrs : Option FieldList) (isErr : Bool) :
    (renderTail st b pos msg attrs isErr).2.map Prod.fst =
      [if isErr then Channel.err else Channel.standard] := rfl

/-- Every flushed write of `renderTail` is newline-terminated and at most
`BUFFER_SIZE` long, whatever was already in the line. -/
theorem renderTail_newline (st : LogState) (b : Buf) (pos : Nat) (msg : JStr)
    (attrs : Option FieldList) (isErr : Bool) (hpos : pos ≤ BUFFER_SIZE) :
    (renderTail st b pos msg attrs isErr).2.length = 1 ∧
      ∀ w ∈ (renderTail st b pos msg attrs isErr).2,
        w.2.length ≤ BUFFER_SIZE ∧ 1 ≤ w.2.length ∧ w.2.getLast? = some 10 := by
  unfold renderTail
  dsimp only
  have hm := writeStringAsBytes_le b pos msg hpos
  set rm := writeStringAsBytes b pos msg with hrmdef
  set hasAttrs := hasOwnProperties st.defaultAttributes ||
    (match attrs with | some a => hasOwnProperties a | none => false) with hadef
  have hra : ((if hasAttrs then
      buildAttributesToBuffer st.defaultAttributes
        (writeBytes rm.1 rm.2 STATIC_BYTES.SPACE).1
        (writeBytes rm.1 rm.2 STATIC_BYTES.SPACE).2 attrs
    else rm)).2 ≤ BUFFER_SIZE := by
    cases hasAttrs with
    | true =>
      simp only [ite_true_bool]
      have hs := writeBytes_le rm.1 rm.2 STATIC_BYTES.SPACE hm.1
      exact (buildAttributesToBuffer_le st.defaultAttributes attrs _ _ hs.1).1
    | false =>
      simp only [ite_false_bool]
      exact hm.1
  set ra := if hasAttrs then
      buildAttributesToBuffer st.defaultAttributes
        (writeBytes rm.1 rm.2 STATIC_BYTES.SPACE).1
        (writeBytes rm.1 rm.2 STATIC_BYTES.SPACE).2 attrs
    else rm with hradef
  by_cases hfull : ra.2 < BUFFER_SIZE
  · rw [if_pos hfull]
    have hnl := writeBytes_ok ra.1 ra.2 STATIC_BYTES.NEWLINE (by
      simp only [STATIC_BYTES.NEWLINE, List.length_cons, List.length_nil]
      omega)
    rw [hnl]
    simp only [STATIC_BYTES.NEWLINE, List.length_cons, List.length_nil]
    refine ⟨trivial, ?_⟩
    intro w hw
    rw [List.mem_singleton] at hw
    subst hw
    unfold flushBuffer
    dsimp only
    refine ⟨?_, ?_, ?_⟩
    · rw [readRange_length]
      omega
    · rw [readRange_length]
      omega
    · rw [readRange_getLast _ _ (by omega)]
      have harith : ra.2 + 1 - 1 = ra.2 := by omega
      rw [harith, setRange_single_at]
  · rw [if_neg hfull]
    refine ⟨rfl, ?_⟩
    intro w hw
    rw [List.mem_singleton] at hw
    subst hw
    unfold flushBuffer
    dsimp only
    have hBpos : 0 < BUFFER_SIZE := by decide
    refine ⟨?_, ?_, ?_⟩
    · rw [readRange_length]
    · rw [readRange_length]
      omega
    · rw [readRange_getLast _ _ hBpos]
      exact congrArg some (bufWrite_at _ _ _)

/-! ## Observation functions on attribute records -/

/-- The keys of a record, in iteration order. -/
def fieldKeys : FieldList → List JStr
  | .nil => []
  | .cons k _ tl => k :: fieldKeys tl

/-- The value stored under a key (first occurrence). -/
def fieldLookup : FieldList → JStr → Option Value
  | .nil, _ => none
  | .cons k v tl, q => if k = q then some v else fieldLookup tl q

theorem fieldKeys_recSet (fs : FieldList) (k : JStr) (v : Value) :
    fieldKeys (recSet fs k v) =
      if k ∈ fieldKeys fs then fieldKeys fs else fieldKeys fs ++ [k] := by
  match fs with
  | .nil => simp [recSet, fieldKeys]
  | .cons k0 v0 tl =>
    unfold recSet
    by_cases hk : k0 = k
    · subst hk
      simp [fieldKeys]
    · rw [if_neg hk]
      show fieldKeys (.cons k0 v0 (recSet tl k v)) = _
      unfold fieldKeys
      rw [fieldKeys_recSet tl k v]
      by_cases hmem : k ∈ fieldKeys tl
      · rw [if_pos hmem, if_pos (by simp [fieldKeys, hmem])]
      · rw [if_neg hmem, if_neg (by
          simp only [fieldKeys, List.mem_cons]
          push_neg
          exact ⟨fun hc => hk hc.symm, hmem⟩)]
        simp

theorem fieldLookup_recSet (fs : FieldList) (k : JStr) (v : Value) (q : JStr) :
    fieldLookup (recSet fs k v) q = if q = k then some v else fieldLookup fs q := by
  match fs with
  | .nil =>
    unfold recSet fieldLookup
    by_cases hq : q = k
    · subst hq
      simp
    · rw [if_neg hq, if_neg (fun hc => hq hc.symm)]
      rfl
  | .cons k0 v0 tl =>
    unfold recSet
    by_cases hk : k0 = k
    · subst hk
      rw [if_pos rfl]
      unfold fieldLookup
      by_cases hq : k0 = q
      · subst hq
        rw [if_pos rfl, if_pos rfl]
      · rw [if_neg hq, if_neg (fun hc : q = k0 => hq hc.symm), if_neg hq]
    · rw [if_neg hk]
      unfold fieldLookup
      by_cases hq0 : k0 = q
      · subst hq0
        rw [if_pos rfl, if_pos rfl, if_neg (fun hc : k0 = k => hk hc)]
      · rw [if_neg hq0, if_neg hq0, fieldLookup_recSet tl k v q]

theorem fieldKeys_mergeAttrs (attrs : FieldList) : ∀ (fs : FieldList),
    (fieldKeys attrs).Nodup →
    fieldKeys (mergeAttrs fs attrs) =
      fieldKeys fs ++ (fieldKeys attrs).filter (fun q => decide (q ∉ fieldKeys fs)) := by
  match attrs with
  | .nil =>
    intro fs _
    simp [mergeAttrs, fieldKeys]
  | .cons k v tl =>
    intro fs hnd
    have hnd' : (fieldKeys tl).Nodup ∧ k ∉ fieldKeys tl := by
      have : (fieldKeys (.cons k v tl)) = k :: fieldKeys tl := rfl
      rw [this] at hnd
      rw [List.nodup_cons] at hnd
      exact ⟨hnd.2, hnd.1⟩
    show fieldKeys (mergeAttrs (recSet fs k v) tl) = _
    rw [fieldKeys_mergeAttrs tl (recSet fs k v) hnd'.1]
    rw [fieldKeys_recSet]
    have hkeys : fieldKeys (FieldList.cons k v tl) = k :: fieldKeys tl := rfl
    rw [hkeys]
    by_cases hmem : k ∈ fieldKeys fs
    · rw [if_pos hmem]
      rw [List.filter_cons_of_neg (by simp [hmem])]
    · rw [if_neg hmem]
      rw [List.filter_cons_of_pos (by simp [hmem])]
      have hfc : List.filter (fun q => decide (q ∉ fieldKeys fs ++ [k])) (fieldKeys tl) =
          List.filter (fun q => decide (q ∉ fieldKeys fs)) (fieldKeys tl) :=
        List.filter_congr (fun x hx => by
          rw [decide_eq_decide]
          constructor
          · intro hnotin hin
            exact hnotin (List.mem_append_left _ hin)
          · intro hnotin hin
            rcases List.mem_append.mp hin with hin | hin
            · exact hnotin hin
            · rw [List.mem_singleton] at hin
              subst hin
              exact hnd'.2 hx)
      rw [hfc]
      simp [List.append_assoc]

theorem fieldLookup_mergeAttrs (attrs : FieldList) : ∀ (fs : FieldList) (q : JStr),
    (fieldKeys attrs).Nodup →
    fieldLookup (mergeAttrs fs attrs) q =
      if q ∈ fieldKeys attrs then fieldLookup attrs q else fieldLookup fs q := by
  match attrs with
  | .nil =>
    intro fs q _
    simp [mergeAttrs, fieldKeys, fieldLookup]
  | .cons k v tl =>
    intro fs q hnd
    have hkeys : fieldKeys (FieldList.cons k v tl) = k :: fieldKeys tl := rfl
    rw [hkeys] at hnd
    rw [List.nodup_cons] at hnd
    show fieldLookup (mergeAttrs (recSet fs k v) tl) q = _
    rw [fieldLookup_mergeAttrs tl (recSet fs k v) q hnd.2]
    rw [hkeys]
    by_cases htl : q ∈ fieldKeys tl
    · rw [if_pos htl, if_pos (List.mem_cons_of_mem _ htl)]
      have hqk : ¬k = q := fun hc => hnd.1 (hc ▸ htl)
      show fieldLookup tl q = fieldLookup (.cons k v tl) q
      rw [show fieldLookup (FieldList.cons k v tl) q =
        if k = q then some v else fieldLookup tl q from rfl]
      rw [if_neg hqk]
    · rw [if_neg htl, fieldLookup_recSet]
      by_cases hq : q = k
      · subst hq
        rw [if_pos rfl, if_pos (List.mem_cons_self _ _)]
        show some v = fieldLookup (.cons q v tl) q
        unfold fieldLookup
        rw [if_pos rfl]
      · rw [if_neg hq, if_neg (by
          rw [List.mem_cons]
          push_neg
          exact ⟨hq, htl⟩)]

/-! ## Claim theorems -/

/-- C1: the claim states that every negative number is serialized as a
minus byte followed by the textual magnitude, in particular that -3.14
appends exactly "-3.14". The code violates this for negative non-integers:
the minus byte is written, but the fallback branch then writes the string
form of the already-negated magnitude at the original `offset`, overwriting
the minus. Evaluating the embedded code: -3.14 (the decimal -314/10^2)
appends the bytes "3.14" ([51, 46, 49, 52]) and advances the cursor by 4,
not the claimed "-3.14"; negative integers such as -42 are unaffected. -/
theorem c1_negative_float_eval :
    readRange (writeNumberAsBytes emptyBuf 0 (JSNumber.finite (-314) 2)).1 0
        (writeNumberAsBytes emptyBuf 0 (JSNumber.finite (-314) 2)).2 = [51, 46, 49, 52] ∧
      (writeNumberAsBytes emptyBuf 0 (JSNumber.finite (-314) 2)).2 = 4 ∧
      readRange (writeNumberAsBytes emptyBuf 0 (JSNumber.finite (-42) 0)).1 0
        (writeNumberAsBytes emptyBuf 0 (JSNumber.finite (-42) 0)).2 = [45, 52, 50] := by
  refine ⟨by decide, by decide, by decide⟩

/-- C2 counterexample: with default tier {k: 1} and call tier {k: 2}, the
claim says the emitted block contains only the call-tier entry and the
default-tier value does not appear. The code emits both: the block is
exactly "k=1 k=2", so the default-tier value k=1 does appear. -/
theorem c2_shared_key_counterexample :
    readRange
        (buildAttributesToBuffer (FieldList.cons [107] (Value.num (JSNumber.finite 1 0))
          FieldList.nil) emptyBuf 0
          (some (FieldList.cons [107] (Value.num (JSNumber.finite 2 0)) FieldList.nil))).1 0
        (buildAttributesToBuffer (FieldList.cons [107] (Value.num (JSNumber.finite 1 0))
          FieldList.nil) emptyBuf 0
          (some (FieldList.cons [107] (Value.num (JSNumber.finite 2 0)) FieldList.nil))).2 =
      [107, 61, 49, 32, 107, 61, 50] := by
  decide

/-- C2 (amended): no key is overridden or removed; the emitted block is
all default-tier entries in insertion order followed by all call-tier
entries in insertion order, each rendered as key=value and separated by
single spaces, so a key present in both tiers appears twice with the
call-tier occurrence later in the line. -/
theorem c2_attribute_block_layout (defaults attrs : FieldList) (b : Buf) (off : Nat)
    (h : off + (attrsLoopBytes false defaults ++
        attrsLoopBytes (hasOwnProperties defaults) attrs).length ≤ BUFFER_SIZE) :
    buildAttributesToBuffer defaults b off (some attrs) =
      (setRange b off (attrsLoopBytes false defaults ++
          attrsLoopBytes (hasOwnProperties defaults) attrs),
        off + (attrsLoopBytes false defaults ++
          attrsLoopBytes (hasOwnProperties defaults) attrs).length) :=
  buildAttributesToBuffer_ok defaults (some attrs) b off h

/-- Witness for C2: the amended layout at the shared-key instance. -/
theorem c2_attribute_block_layout_witness :
    (0 + (attrsLoopBytes false (FieldList.cons [107] (Value.num (JSNumber.finite 1 0))
        FieldList.nil) ++
      attrsLoopBytes (hasOwnProperties (FieldList.cons [107] (Value.num (JSNumber.finite 1 0))
        FieldList.nil))
        (FieldList.cons [107] (Value.num (JSNumber.finite 2 0)) FieldList.nil)).length ≤
      BUFFER_SIZE) ∧
    buildAttributesToBuffer (FieldList.cons [107] (Value.num (JSNumber.finite 1 0))
        FieldList.nil) emptyBuf 0
        (some (FieldList.cons [107] (Value.num (JSNumber.finite 2 0)) FieldList.nil)) =
      (setRange emptyBuf 0 (attrsLoopBytes false (FieldList.cons [107]
          (Value.num (JSNumber.finite 1 0)) FieldList.nil) ++
        attrsLoopBytes (hasOwnProperties (FieldList.cons [107]
          (Value.num (JSNumber.finite 1 0)) FieldList.nil))
          (FieldList.cons [107] (Value.num (JSNumber.finite 2 0)) FieldList.nil)),
        0 + (attrsLoopBytes false (FieldList.cons [107] (Value.num (JSNumber.finite 1 0))
          FieldList.nil) ++
        attrsLoopBytes (hasOwnProperties (FieldList.cons [107]
          (Value.num (JSNumber.finite 1 0)) FieldList.nil))
          (FieldList.cons [107] (Value.num (JSNumber.finite 2 0)) FieldList.nil)).length) :=
  ⟨by decide, c2_attribute_block_layout _ _ emptyBuf 0 (by decide)⟩

/-- C3 counterexample: the claim says every append primitive writes
exactly the bytes that fit and saturates the cursor at 8192. For
appendNumber's integer path this fails: writing 12345 at offset 8190
(2 bytes remaining) writes nothing and returns the cursor unchanged at
8190 — not 8192, and not the two bytes "12". -/
theorem c3_number_no_clip_counterexample :
    (writeNumberAsBytes emptyBuf 8190 (JSNumber.finite 12345 0)).2 = 8190 ∧
      readRange (writeNumberAsBytes emptyBuf 8190 (JSNumber.finite 12345 0)).1 8190 2 =
        [0, 0] := by
  refine ⟨by decide, by decide⟩

/-- C3 (amended): appendBytes clips to exactly the bytes that fit and
saturates the cursor at capacity; appendText does the same for ASCII
text, while for non-ASCII text it writes only whole UTF-8 code points
that fit (cursor still bounded by capacity but possibly below it); and
appendNumber's digit run is all-or-nothing. For a non-negative integer
whose digits do not all fit, nothing is written and the cursor is
returned unchanged; for a negative integer the minus byte is written
first (clipped like appendBytes, so the cursor advances past it when
there is room), and when the digits then do not all fit the call is
exactly that minus-byte write — no digit is written and the cursor stays
just after the minus. No error is raised in any case (all operations
are total). -/
theorem c3_clipping_amended :
    (∀ (b : Buf) (off : Nat) (src : List Nat), off ≤ BUFFER_SIZE →
      BUFFER_SIZE - off < src.length →
      writeBytes b off src =
        (setRange b off (src.take (BUFFER_SIZE - off)), BUFFER_SIZE)) ∧
    (∀ (b : Buf) (off : Nat) (s : JStr), isAsciiStr s = true → off ≤ BUFFER_SIZE →
      BUFFER_SIZE - off < s.length →
      writeStringAsBytes b off s =
        (setRange b off (s.take (BUFFER_SIZE - off)), BUFFER_SIZE)) ∧
    (∀ (b : Buf) (off : Nat) (s : JStr), off ≤ BUFFER_SIZE →
      (writeStringAsBytes b off s).2 ≤ BUFFER_SIZE) ∧
    (∀ (b : Buf) (off : Nat) (m : Int) (e : Nat), 0 < m →
      10 ^ e ∣ m.natAbs → m.natAbs / 10 ^ e < MAX_SAFE_INTEGER →
      BUFFER_SIZE < off + (asciiDigits (m.natAbs / 10 ^ e)).length →
      writeNumberAsBytes b off (JSNumber.finite m e) = (b, off)) ∧
    (∀ (b : Buf) (off : Nat) (m : Int) (e : Nat), m < 0 →
      10 ^ e ∣ m.natAbs → m.natAbs / 10 ^ e < MAX_SAFE_INTEGER →
      BUFFER_SIZE < (writeBytes b off STATIC_BYTES.MINUS).2 +
        (asciiDigits (m.natAbs / 10 ^ e)).length →
      writeNumberAsBytes b off (JSNumber.finite m e) =
        writeBytes b off STATIC_BYTES.MINUS) := by
  refine ⟨?_, ?_, ?_, ?_, ?_⟩
  · intro b off src h1 h2
    unfold writeBytes
    by_cases hge : BUFFER_SIZE ≤ off
    · rw [if_pos hge]
      have hoff : off = BUFFER_SIZE := by omega
      subst hoff
      have hz : BUFFER_SIZE - BUFFER_SIZE = 0 := by omega
      rw [hz]
      simp [setRange]
    · rw [if_neg hge]
      dsimp only
      have hmin : min src.length (BUFFER_SIZE - off) = BUFFER_SIZE - off := by omega
      rw [hmin]
      simp only [Prod.mk.injEq]
      exact ⟨trivial, by omega⟩
  · intro b off s ha h1 h2
    unfold writeStringAsBytes
    by_cases hge : BUFFER_SIZE ≤ off
    · rw [if_pos hge]
      have hoff : off = BUFFER_SIZE := by omega
      subst hoff
      have hz : BUFFER_SIZE - BUFFER_SIZE = 0 := by omega
      rw [hz]
      simp [setRange]
    · rw [if_neg hge, if_pos ha]
      dsimp only
      have hmin : min s.length (BUFFER_SIZE - off) = BUFFER_SIZE - off := by omega
      rw [hmin]
      simp only [Prod.mk.injEq]
      exact ⟨trivial, by omega⟩
  · intro b off s h
    exact (writeStringAsBytes_le b off s h).1
  · intro b off m e hm hdvd hsafe hbig
    unfold writeNumberAsBytes
    dsimp only
    rw [if_neg (show ¬m < 0 by omega)]
    rw [if_neg (show ¬m.natAbs = 0 by omega)]
    rw [if_pos (And.intro hdvd hsafe)]
    dsimp only
    rw [if_pos hbig]
  · intro b off m e hm hdvd hsafe hbig
    unfold writeNumberAsBytes
    dsimp only
    rw [if_pos hm]
    rw [if_neg (show ¬m.natAbs = 0 by omega)]
    rw [if_pos (And.intro hdvd hsafe)]
    rw [if_pos hbig]

/-- Witness for C3 (amended): byte clipping saturates at 8190 with a
3-byte source, the all-or-nothing number path at the same offset, and
the minus-only write of a negative integer whose digits do not fit. -/
theorem c3_clipping_amended_witness :
    ((8190 : Nat) ≤ BUFFER_SIZE ∧ BUFFER_SIZE - 8190 < ([1, 2, 3] : List Nat).length ∧
      (0 : Int) < 12345 ∧
      BUFFER_SIZE < 8190 + (asciiDigits ((12345 : Int).natAbs / 10 ^ 0)).length ∧
      (-12345 : Int) < 0 ∧
      BUFFER_SIZE < (writeBytes emptyBuf 8190 STATIC_BYTES.MINUS).2 +
        (asciiDigits ((-12345 : Int).natAbs / 10 ^ 0)).length) ∧
    writeBytes emptyBuf 8190 [1, 2, 3] =
      (setRange emptyBuf 8190 ([1, 2, 3].take (BUFFER_SIZE - 8190)), BUFFER_SIZE) ∧
    writeNumberAsBytes emptyBuf 8190 (JSNumber.finite 12345 0) = (emptyBuf, 8190) ∧
    writeNumberAsBytes emptyBuf 8190 (JSNumber.finite (-12345) 0) =
      writeBytes emptyBuf 8190 STATIC_BYTES.MINUS ∧
    (writeNumberAsBytes emptyBuf 8190 (JSNumber.finite (-12345) 0)).2 = 8191 ∧
    readRange (writeNumberAsBytes emptyBuf 8190 (JSNumber.finite (-12345) 0)).1 8190 2 =
      [45, 0] :=
  ⟨⟨by decide, by decide, by decide, by decide, by decide, by decide⟩,
    c3_clipping_amended.1 emptyBuf 8190 [1, 2, 3] (by decide) (by decide),
    c3_clipping_amended.2.2.2.1 emptyBuf 8190 12345 0 (by decide) (by decide) (by decide)
      (by decide),
    c3_clipping_amended.2.2.2.2 emptyBuf 8190 (-12345) 0 (by decide) (by decide) (by decide)
      (by decide),
    by decide, by decide⟩

/-- C4 counterexample: the claim says every flushed range ends with
exactly one newline byte regardless of message. With message "a\n" (whose
last code unit is already 0x0A) the finalizer appends another newline, so
the flushed range " INFO a\n\n" ends with two newline bytes. (Timestamp
bytes are empty here: the cache has never refreshed at `now = 0`.) -/
theorem c4_trailing_newline_counterexample :
    (log (fun _ => ⟨2024, 0, 15, 12, 30, 45⟩) initialState 0 0 [97, 10] none).2 =
      [(Channel.standard, [32, 73, 78, 70, 79, 32, 97, 10, 10])] := by
  decide

/-- C4 (amended): for every log call that passes the level filter,
exactly one byte range is flushed; it is nonempty, at most 8192 bytes
long, and its final byte is the newline byte 0x0A (when the rendered
content itself ends in 0x0A the line ends in more than one newline
byte, so "exactly one" holds only for content not ending in 0x0A). -/
theorem c4_line_flush_amended (dateOf : Int → DateParts) (st : LogState) (now : Int)
    (level : Int) (msg : JStr) (attrs : Option FieldList)
    (h : st.minimumLevel ≤ level) :
    (log dateOf st now level msg attrs).2.length = 1 ∧
      ∀ w ∈ (log dateOf st now level msg attrs).2,
        w.2.length ≤ BUFFER_SIZE ∧ 1 ≤ w.2.length ∧ w.2.getLast? = some 10 := by
  unfold log
  rw [if_neg (show ¬level < st.minimumLevel by omega)]
  dsimp only
  set st1 := updateTimestampCache dateOf now st with hst1
  set r1 := writeBytes st1.buf 0 (st1.cachedTimestampBytes.take st1.timestampLength) with hr1
  have h1 := writeBytes_le st1.buf 0 (st1.cachedTimestampBytes.take st1.timestampLength)
    (Nat.zero_le _)
  set r2 := writeBytes r1.1 r1.2 (st1.cachedSecondsBytes.take st1.secondsLength) with hr2
  have h2 := writeBytes_le r1.1 r1.2 (st1.cachedSecondsBytes.take st1.secondsLength) h1.1
  have h3 : (if level = LEVEL_DEBUG then writeBytes r2.1 r2.2 STATIC_BYTES.DEBUG
      else if level = LEVEL_INFO then writeBytes r2.1 r2.2 STATIC_BYTES.INFO
      else if level = LEVEL_WARN then writeBytes r2.1 r2.2 STATIC_BYTES.WARN
      else writeBytes r2.1 r2.2 STATIC_BYTES.ERROR).2 ≤ BUFFER_SIZE := by
    by_cases hd : level = LEVEL_DEBUG
    · rw [if_pos hd]
      exact (writeBytes_le r2.1 r2.2 STATIC_BYTES.DEBUG h2.1).1
    · rw [if_neg hd]
      by_cases hi : level = LEVEL_INFO
      · rw [if_pos hi]
        exact (writeBytes_le r2.1 r2.2 STATIC_BYTES.INFO h2.1).1
      · rw [if_neg hi]
        by_cases hw : level = LEVEL_WARN
        · rw [if_pos hw]
          exact (writeBytes_le r2.1 r2.2 STATIC_BYTES.WARN h2.1).1
        · rw [if_neg hw]
          exact (writeBytes_le r2.1 r2.2 STATIC_BYTES.ERROR h2.1).1
  exact renderTail_newline st1 _ _ msg attrs _ h3

/-- Witness for C4 (amended): the guarantee at a concrete passing call. -/
theorem c4_line_flush_amended_witness :
    initialState.minimumLevel ≤ 0 ∧
      ((log (fun _ => ⟨2024, 0, 15, 12, 30, 45⟩) initialState 0 0 [104, 105] none).2.length = 1 ∧
        ∀ w ∈ (log (fun _ => ⟨2024, 0, 15, 12, 30, 45⟩) initialState 0 0 [104, 105] none).2,
          w.2.length ≤ BUFFER_SIZE ∧ 1 ≤ w.2.length ∧ w.2.getLast? = some 10) :=
  ⟨by decide, c4_line_flush_amended (fun _ => ⟨2024, 0, 15, 12, 30, 45⟩) initialState 0 0
    [104, 105] none (by decide)⟩

/-- C5: a call with level strictly below the configured minimum returns
immediately: the state (buffer, default attributes, timestamp cache,
last-refresh instant) is returned unchanged and the list of channel
writes is empty; likewise for each dedicated entry point when its fixed
level is below the minimum. -/
theorem c5_below_minimum_no_effect (dateOf : Int → DateParts) (st : LogState) (now : Int)
    (level : Int) (msg : JStr) (attrs : Option FieldList) :
    (level < st.minimumLevel → log dateOf st now level msg attrs = (st, [])) ∧
    (LEVEL_DEBUG < st.minimumLevel → debug dateOf st now msg attrs = (st, [])) ∧
    (LEVEL_INFO < st.minimumLevel → info dateOf st now msg attrs = (st, [])) ∧
    (LEVEL_WARN < st.minimumLevel → warn dateOf st now msg attrs = (st, [])) ∧
    (LEVEL_ERROR < st.minimumLevel → error dateOf st now msg attrs = (st, [])) := by
  refine ⟨?_, ?_, ?_, ?_, ?_⟩
  · intro h
    unfold log
    rw [if_pos h]
  · intro h
    unfold debug
    rw [if_pos h]
  · intro h
    unfold info
    rw [if_pos h]
  · intro h
    unfold warn
    rw [if_pos h]
  · intro h
    unfold error
    rw [if_pos h]

/-- Witness for C5: with the minimum level set to 9 every entry point is
filtered out and leaves the state untouched. -/
theorem c5_below_minimum_no_effect_witness :
    ((0 : Int) < (setDefaultLogLevel initialState 9).minimumLevel ∧
      LEVEL_DEBUG < (setDefaultLogLevel initialState 9).minimumLevel ∧
      LEVEL_ERROR < (setDefaultLogLevel initialState 9).minimumLevel) ∧
    log (fun _ => ⟨2024, 0, 15, 12, 30, 45⟩) (setDefaultLogLevel initialState 9) 0 0 [104]
        none = (setDefaultLogLevel initialState 9, []) ∧
    debug (fun _ => ⟨2024, 0, 15, 12, 30, 45⟩) (setDefaultLogLevel initialState 9) 0 [104]
        none = (setDefaultLogLevel initialState 9, []) ∧
    error (fun _ => ⟨2024, 0, 15, 12, 30, 45⟩) (setDefaultLogLevel initialState 9) 0 [104]
        none = (setDefaultLogLevel initialState 9, []) :=
  ⟨⟨by decide, by decide, by decide⟩,
    (c5_below_minimum_no_effect (fun _ => ⟨2024, 0, 15, 12, 30, 45⟩)
      (setDefaultLogLevel initialState 9) 0 0 [104] none).1 (by decide),
    (c5_below_minimum_no_effect (fun _ => ⟨2024, 0, 15, 12, 30, 45⟩)
      (setDefaultLogLevel initialState 9) 0 0 [104] none).2.1 (by decide),
    (c5_below_minimum_no_effect (fun _ => ⟨2024, 0, 15, 12, 30, 45⟩)
      (setDefaultLogLevel initialState 9) 0 0 [104] none).2.2.2.2 (by decide)⟩

/-- C6: a call passing the filter flushes exactly to the error channel
when the level is at least WARN (4) and to the standard channel when it
is below WARN; debug/info always flush to the standard channel and
warn/error always to the error channel whenever they pass the filter,
whatever the configured minimum level. -/
theorem c6_channel_routing (dateOf : Int → DateParts) (st : LogState) (now : Int)
    (level : Int) (msg : JStr) (attrs : Option FieldList) :
    (st.minimumLevel ≤ level →
      (log dateOf st now level msg attrs).2.map Prod.fst =
        [if LEVEL_WARN ≤ level then Channel.err else Channel.standard]) ∧
    (st.minimumLevel ≤ LEVEL_DEBUG →
      (debug dateOf st now msg attrs).2.map Prod.fst = [Channel.standard]) ∧
    (st.minimumLevel ≤ LEVEL_INFO →
      (info dateOf st now msg attrs).2.map Prod.fst = [Channel.standard]) ∧
    (st.minimumLevel ≤ LEVEL_WARN →
      (warn dateOf st now msg attrs).2.map Prod.fst = [Channel.err]) ∧
    (st.minimumLevel ≤ LEVEL_ERROR →
      (error dateOf st now msg attrs).2.map Prod.fst = [Channel.err]) := by
  refine ⟨?_, ?_, ?_, ?_, ?_⟩
  · intro h
    unfold log
    rw [if_neg (show ¬level < st.minimumLevel by omega)]
    dsimp only
    rw [renderTail_channels]
    by_cases hw : LEVEL_WARN ≤ level
    · rw [if_pos hw, if_pos (decide_eq_true hw)]
    · rw [if_neg hw, if_neg (fun hc => hw (of_decide_eq_true hc))]
  · intro h
    unfold debug
    rw [if_neg (show ¬LEVEL_DEBUG < st.minimumLevel by omega)]
    dsimp only
    rw [renderTail_channels]
    rfl
  · intro h
    unfold info
    rw [if_neg (show ¬LEVEL_INFO < st.minimumLevel by omega)]
    dsimp only
    rw [renderTail_channels]
    rfl
  · intro h
    unfold warn
    rw [if_neg (show ¬LEVEL_WARN < st.minimumLevel by omega)]
    dsimp only
    rw [renderTail_channels]
    rfl
  · intro h
    unfold error
    rw [if_neg (show ¬LEVEL_ERROR < st.minimumLevel by omega)]
    dsimp only
    rw [renderTail_channels]
    rfl

/-- Witness for C6: with the minimum at DEBUG, a level-8 `log` call goes
to the error channel and all four entry points route as claimed. -/
theorem c6_channel_routing_witness :
    ((setDefaultLogLevel initialState (-4)).minimumLevel ≤ 8 ∧
      (setDefaultLogLevel initialState (-4)).minimumLevel ≤ LEVEL_DEBUG) ∧
    (log (fun _ => ⟨2024, 0, 15, 12, 30, 45⟩) (setDefaultLogLevel initialState (-4)) 0 8
        [104] none).2.map Prod.fst =
      [if LEVEL_WARN ≤ (8 : Int) then Channel.err else Channel.standard] ∧
    (debug (fun _ => ⟨2024, 0, 15, 12, 30, 45⟩) (setDefaultLogLevel initialState (-4)) 0
        [104] none).2.map Prod.fst = [Channel.standard] ∧
    (warn (fun _ => ⟨2024, 0, 15, 12, 30, 45⟩) (setDefaultLogLevel initialState (-4)) 0
        [104] none).2.map Prod.fst = [Channel.err] :=
  ⟨⟨by decide, by decide⟩,
    (c6_channel_routing (fun _ => ⟨2024, 0, 15, 12, 30, 45⟩)
      (setDefaultLogLevel initialState (-4)) 0 8 [104] none).1 (by decide),
    (c6_channel_routing (fun _ => ⟨2024, 0, 15, 12, 30, 45⟩)
      (setDefaultLogLevel initialState (-4)) 0 8 [104] none).2.1 (by decide),
    (c6_channel_routing (fun _ => ⟨2024, 0, 15, 12, 30, 45⟩)
      (setDefaultLogLevel initialState (-4)) 0 8 [104] none).2.2.2.1 (by decide)⟩

/-- C7: the timestamp cache is recomputed exactly when at least 1000 ms
of wall-clock time elapsed since the last refresh: below the threshold
the whole state (cached bytes and last-refresh instant) is returned
unchanged; at or above it the header and seconds bytes are re-rendered
from the current instant and the last-refresh instant becomes `now`. -/
theorem c7_timestamp_refresh (dateOf : Int → DateParts) (now : Int) (st : LogState) :
    (now - st.lastCacheTime < 1000 → updateTimestampCache dateOf now st = st) ∧
    (1000 ≤ now - st.lastCacheTime →
      updateTimestampCache dateOf now st =
        { st with
          cachedTimestampBytes := tsHeaderBytes (dateOf now) ++ st.cachedTimestampBytes.drop 17
          timestampLength := 17
          cachedSecondsBytes := secondsBytesOf (dateOf now)
          secondsLength := 2
          lastCacheTime := now }) := by
  constructor
  · intro h
    unfold updateTimestampCache
    rw [if_neg (by omega)]
  · intro h
    unfold updateTimestampCache
    rw [if_pos h]

/-- Witness for C7: at 500 ms elapsed nothing changes; at 2000 ms the
last-refresh instant becomes the query instant. -/
theorem c7_timestamp_refresh_witness :
    ((500 : Int) - initialState.lastCacheTime < 1000 ∧
      (1000 : Int) ≤ 2000 - initialState.lastCacheTime) ∧
    updateTimestampCache (fun _ => ⟨2024, 0, 15, 12, 30, 45⟩) 500 initialState =
      initialState ∧
    (updateTimestampCache (fun _ => ⟨2024, 0, 15, 12, 30, 45⟩) 2000
        initialState).lastCacheTime = 2000 :=
  ⟨⟨by decide, by decide⟩,
    (c7_timestamp_refresh (fun _ => ⟨2024, 0, 15, 12, 30, 45⟩) 500 initialState).1 (by decide),
    congrArg LogState.lastCacheTime
      ((c7_timestamp_refresh (fun _ => ⟨2024, 0, 15, 12, 30, 45⟩) 2000 initialState).2
        (by decide))⟩

/-- C10: a level passing the filter that is none of -4/0/4 falls into the
else-branch and gets the " ERROR " token, while routing still compares
the level with 4 — so at level 1 the line carries the ERROR token yet is
flushed to the standard channel: the flushed write of
log(1, "hi") is (standard, " ERROR hi\n"). -/
theorem c10_unknown_level_error_token (dateOf : Int → DateParts) (st : LogState) (now : Int)
    (level : Int) (msg : JStr) (attrs : Option FieldList) :
    (st.minimumLevel ≤ level → level < LEVEL_WARN →
      (log dateOf st now level msg attrs).2.map Prod.fst = [Channel.standard]) ∧
    (log (fun _ => ⟨2024, 0, 15, 12, 30, 45⟩) (setDefaultLogLevel initialState (-4)) 0 1
        [104, 105] none).2 =
      [(Channel.standard, [32, 69, 82, 82, 79, 82, 32, 104, 105, 10])] := by
  constructor
  · intro h hw
    unfold log
    rw [if_neg (show ¬level < st.minimumLevel by omega)]
    dsimp only
    rw [renderTail_channels]
    rw [if_neg (fun hc => absurd (of_decide_eq_true hc) (by omega))]
  · decide

/-- Witness for C10: the general routing conjunct at level 1. -/
theorem c10_unknown_level_error_token_witness :
    ((setDefaultLogLevel initialState (-4)).minimumLevel ≤ 1 ∧ (1 : Int) < LEVEL_WARN) ∧
    (log (fun _ => ⟨2024, 0, 15, 12, 30, 45⟩) (setDefaultLogLevel initialState (-4)) 0 1
        [104] none).2.map Prod.fst = [Channel.standard] :=
  ⟨⟨by decide, by decide⟩,
    (c10_unknown_level_error_token (fun _ => ⟨2024, 0, 15, 12, 30, 45⟩)
      (setDefaultLogLevel initialState (-4)) 0 1 [104] none).1 (by decide) (by decide)⟩

/-- C8: with room in the buffer, a generic object is serialized exactly
as '{' followed by the comma-joined pairs quoted-key, ':', recursively
serialized unquoted value, followed by '}'; an array exactly as '[' plus
comma-joined recursive serializations plus ']' with string elements
unquoted. Concretely [1,"two",true,null] renders as "[1,two,true,null]"
and {a:1,b:"x"} as '{"a":1,"b":x}', byte for byte. -/
theorem c8_container_rendering :
    (∀ (fs : FieldList) (b : Buf) (off : Nat),
      off + (STATIC_BYTES.BRACE_OPEN ++ objFieldsBytes true fs ++
        STATIC_BYTES.BRACE_CLOSE).length ≤ BUFFER_SIZE →
      serializeValueToBuffer b off (Value.obj fs) =
        (setRange b off (STATIC_BYTES.BRACE_OPEN ++ objFieldsBytes true fs ++
            STATIC_BYTES.BRACE_CLOSE),
          off + (STATIC_BYTES.BRACE_OPEN ++ objFieldsBytes true fs ++
            STATIC_BYTES.BRACE_CLOSE).length)) ∧
    (∀ (xs : ValueList) (b : Buf) (off : Nat),
      off + (STATIC_BYTES.BRACKET_OPEN ++ arrElemsBytes true xs ++
        STATIC_BYTES.BRACKET_CLOSE).length ≤ BUFFER_SIZE →
      serializeValueToBuffer b off (Value.arr xs) =
        (setRange b off (STATIC_BYTES.BRACKET_OPEN ++ arrElemsBytes true xs ++
            STATIC_BYTES.BRACKET_CLOSE),
          off + (STATIC_BYTES.BRACKET_OPEN ++ arrElemsBytes true xs ++
            STATIC_BYTES.BRACKET_CLOSE).length)) ∧
    (readRange (serializeValueToBuffer emptyBuf 0
          (Value.arr (ValueList.cons (Value.num (JSNumber.finite 1 0))
            (ValueList.cons (Value.str [116, 119, 111])
              (ValueList.cons (Value.bool true)
                (ValueList.cons Value.null ValueList.nil)))))).1 0
        (serializeValueToBuffer emptyBuf 0
          (Value.arr (ValueList.cons (Value.num (JSNumber.finite 1 0))
            (ValueList.cons (Value.str [116, 119, 111])
              (ValueList.cons (Value.bool true)
                (ValueList.cons Value.null ValueList.nil)))))).2 =
      [91, 49, 44, 116, 119, 111, 44, 116, 114, 117, 101, 44, 110, 117, 108, 108, 93]) ∧
    (readRange (serializeValueToBuffer emptyBuf 0
          (Value.obj (FieldList.cons [97] (Value.num (JSNumber.finite 1 0))
            (FieldList.cons [98] (Value.str [120]) FieldList.nil)))).1 0
        (serializeValueToBuffer emptyBuf 0
          (Value.obj (FieldList.cons [97] (Value.num (JSNumber.finite 1 0))
            (FieldList.cons [98] (Value.str [120]) FieldList.nil)))).2 =
      [123, 34, 97, 34, 58, 49, 44, 34, 98, 34, 58, 120, 125]) := by
  refine ⟨?_, ?_, by decide, by decide⟩
  · intro fs b off h
    exact serializeValueToBuffer_ok (Value.obj fs) b off h
  · intro xs b off h
    exact serializeValueToBuffer_ok (Value.arr xs) b off h

/-- Witness for C8: the general object and array conjuncts evaluated at
the two concrete containers of the claim. -/
theorem c8_container_rendering_witness :
    (0 + (STATIC_BYTES.BRACE_OPEN ++ objFieldsBytes true
        (FieldList.cons [97] (Value.num (JSNumber.finite 1 0))
          (FieldList.cons [98] (Value.str [120]) FieldList.nil)) ++
        STATIC_BYTES.BRACE_CLOSE).length ≤ BUFFER_SIZE) ∧
    serializeValueToBuffer emptyBuf 0
        (Value.obj (FieldList.cons [97] (Value.num (JSNumber.finite 1 0))
          (FieldList.cons [98] (Value.str [120]) FieldList.nil))) =
      (setRange emptyBuf 0 (STATIC_BYTES.BRACE_OPEN ++ objFieldsBytes true
          (FieldList.cons [97] (Value.num (JSNumber.finite 1 0))
            (FieldList.cons [98] (Value.str [120]) FieldList.nil)) ++
          STATIC_BYTES.BRACE_CLOSE),
        0 + (STATIC_BYTES.BRACE_OPEN ++ objFieldsBytes true
          (FieldList.cons [97] (Value.num (JSNumber.finite 1 0))
            (FieldList.cons [98] (Value.str [120]) FieldList.nil)) ++
          STATIC_BYTES.BRACE_CLOSE).length) :=
  ⟨by decide, c8_container_rendering.1
    (FieldList.cons [97] (Value.num (JSNumber.finite 1 0))
      (FieldList.cons [98] (Value.str [120]) FieldList.nil)) emptyBuf 0 (by decide)⟩

/-- C9: addDefaultAttributes merges into the default tier: keys already
present keep their position (the key order of the result starts with the
old key order unchanged) and take the new value; keys only in the new
map are appended after all existing keys, in the new map's order; keys
absent from the new map keep value and position. In particular
setDefaultAttributes {a:1}; addDefaultAttributes {b:2};
addDefaultAttributes {a:9} leaves the tier [a:9, b:2], emitted as
"a=9 b=2". -/
theorem c9_addDefaultAttributes (st : LogState) (attrs : FieldList)
    (hnd : (fieldKeys attrs).Nodup) :
    (fieldKeys ((addDefaultAttributes st attrs).defaultAttributes) =
      fieldKeys st.defaultAttributes ++
        (fieldKeys attrs).filter (fun q => decide (q ∉ fieldKeys st.defaultAttributes))) ∧
    (∀ q : JStr, fieldLookup ((addDefaultAttributes st attrs).defaultAttributes) q =
      if q ∈ fieldKeys attrs then fieldLookup attrs q
      else fieldLookup st.defaultAttributes q) ∧
    ((addDefaultAttributes (addDefaultAttributes (setDefaultAttributes initialState
          (FieldList.cons [97] (Value.num (JSNumber.finite 1 0)) FieldList.nil))
          (FieldList.cons [98] (Value.num (JSNumber.finite 2 0)) FieldList.nil))
          (FieldList.cons [97] (Value.num (JSNumber.finite 9 0))
            FieldList.nil)).defaultAttributes =
      FieldList.cons [97] (Value.num (JSNumber.finite 9 0))
        (FieldList.cons [98] (Value.num (JSNumber.finite 2 0)) FieldList.nil)) ∧
    (readRange (buildAttributesToBuffer (FieldList.cons [97]
          (Value.num (JSNumber.finite 9 0))
          (FieldList.cons [98] (Value.num (JSNumber.finite 2 0)) FieldList.nil))
          emptyBuf 0 none).1 0
        (buildAttributesToBuffer (FieldList.cons [97] (Value.num (JSNumber.finite 9 0))
          (FieldList.cons [98] (Value.num (JSNumber.finite 2 0)) FieldList.nil))
          emptyBuf 0 none).2 =
      [97, 61, 57, 32, 98, 61, 50]) := by
  refine ⟨fieldKeys_mergeAttrs attrs st.defaultAttributes hnd,
    fun q => fieldLookup_mergeAttrs attrs st.defaultAttributes q hnd, rfl, by decide⟩

/-- Witness for C9: the key-order conjunct at a concrete merge. -/
theorem c9_addDefaultAttributes_witness :
    ((fieldKeys (FieldList.cons [120] (Value.num (JSNumber.finite 1 0))
      FieldList.nil)).Nodup) ∧
    fieldKeys ((addDefaultAttributes initialState (FieldList.cons [120]
        (Value.num (JSNumber.finite 1 0)) FieldList.nil)).defaultAttributes) =
      fieldKeys initialState.defaultAttributes ++
        (fieldKeys (FieldList.cons [120] (Value.num (JSNumber.finite 1 0))
          FieldList.nil)).filter
          (fun q => decide (q ∉ fieldKeys initialState.defaultAttributes)) :=
  ⟨by decide, (c9_addDefaultAttributes initialState
    (FieldList.cons [120] (Value.num (JSNumber.finite 1 0)) FieldList.nil) (by decide)).1⟩
